import Mathlib

/-!
# PokiFace: response normalisation, slugs, artwork lookup, upload and credential handling

A shallow embedding of `script.js` (class `PokiFaceApp`) and of the proxy function
`api/getPokemonTwin/index.js`.

JavaScript strings are sequences of UTF-16 code units; they are embedded as lists of
natural numbers (`JsString`).  `utf16` turns a Lean string into that form.
-/

namespace PokiFace

/-- A JavaScript string: its UTF-16 code units. -/
abbrev JsString := List Nat

/-- UTF-16 code units of one Unicode scalar value. -/
def utf16Char (c : Char) : List Nat :=
  if c.toNat < 0x10000 then [c.toNat]
  else [0xD800 + (c.toNat - 0x10000) / 0x400, 0xDC00 + (c.toNat - 0x10000) % 0x400]

/-- UTF-16 code units of a Lean string. -/
def utf16 (s : String) : JsString :=
  s.toList.flatMap utf16Char

/-- Exact decimal value of a JSON number literal: `(-1)^neg * mant * 10^exp`, before the
rounding to a double that the engine performs. -/
structure JsNumber where
  neg : Bool
  mant : Nat
  exp : Int
deriving DecidableEq, Repr

/-- JavaScript values as far as `JSON.parse` and property reads produce them.
An object is its list of members in source order (a later duplicate key wins on lookup). -/
inductive JsValue where
  | undefined : JsValue
  | null : JsValue
  | bool (b : Bool) : JsValue
  | num (n : JsNumber) : JsValue
  | str (s : JsString) : JsValue
  | arr (items : List JsValue) : JsValue
  | obj (members : List (JsString × JsValue)) : JsValue
deriving Repr

/-- The number rounds to `+0` or `-0` as an IEEE double (round to nearest, ties to even):
exactly when its magnitude is at most `2^-1075`, half of the least subnormal. -/
def JsNumber.isZero (n : JsNumber) : Bool :=
  if 0 ≤ n.exp then n.mant == 0
  else decide (n.mant * 2 ^ 1075 ≤ 10 ^ n.exp.natAbs)

/-- JavaScript `ToBoolean`.  A literal can never denote `NaN`. -/
def truthy : JsValue → Bool
  | .undefined => false
  | .null => false
  | .bool b => b
  | .num n => !n.isZero
  | .str s => !s.isEmpty
  | .arr _ => true
  | .obj _ => true

/-- Last member with the given key, as `CreateDataProperty` overwrites earlier ones. -/
def lookupMember (key : JsString) : List (JsString × JsValue) → JsValue
  | [] => .undefined
  | (k, v) :: rest =>
    match lookupMember key rest with
    | .undefined => if k = key then v else .undefined
    | w => w

/-- Reading `v.key` for a key that no built-in prototype defines.  `none` is the `TypeError`
raised when `v` is `undefined` or `null`. -/
def getProp (v : JsValue) (key : JsString) : Option JsValue :=
  match v with
  | .undefined => none
  | .null => none
  | .obj members => some (lookupMember key members)
  | _ => some .undefined

/-! ## `JSON.parse` (ECMA-404 grammar) -/

namespace JSON

/-- JSON white space: tab, line feed, carriage return, space. -/
def isWs (c : Nat) : Bool :=
  c == 9 || c == 10 || c == 13 || c == 32

def skipWs (cs : JsString) : JsString :=
  cs.dropWhile isWs

def isDigit (c : Nat) : Bool :=
  decide (48 ≤ c ∧ c ≤ 57)

def hexVal (c : Nat) : Option Nat :=
  if 48 ≤ c ∧ c ≤ 57 then some (c - 48)
  else if 65 ≤ c ∧ c ≤ 70 then some (c - 55)
  else if 97 ≤ c ∧ c ≤ 102 then some (c - 87)
  else none

/-- Code unit denoted by the four hex digits of a `\u` escape. -/
def hex4 (a b c d : Nat) : Option Nat :=
  match hexVal a, hexVal b, hexVal c, hexVal d with
  | some x, some y, some z, some w => some (((x * 16 + y) * 16 + z) * 16 + w)
  | _, _, _, _ => none

/-- Code unit denoted by a one-letter escape `\e`. -/
def escapeUnit (e : Nat) : Option Nat :=
  if e = 34 then some 34
  else if e = 92 then some 92
  else if e = 47 then some 47
  else if e = 98 then some 8
  else if e = 102 then some 12
  else if e = 110 then some 10
  else if e = 114 then some 13
  else if e = 116 then some 9
  else none

/-- Puts a decoded code unit in front of the decoded rest of a string, if both exist. -/
def consUnit (u : Option Nat) (p : Option (JsString × JsString)) :
    Option (JsString × JsString) :=
  match u, p with
  | some u, some (s, r) => some (u :: s, r)
  | _, _ => none

/-- Characters of a string after its opening quote, up to and including the closing quote.
Returns the decoded string and the rest of the input. -/
def parseStringBody : JsString → Option (JsString × JsString)
  | [] => none
  | 34 :: rest => some ([], rest)
  | 92 :: 117 :: a :: b :: c :: d :: rest => consUnit (hex4 a b c d) (parseStringBody rest)
  | 92 :: e :: rest => consUnit (escapeUnit e) (parseStringBody rest)
  | c :: rest =>
    if c < 32 ∨ c = 92 then none else consUnit (some c) (parseStringBody rest)

/-- Value of a run of decimal digits, most significant first. -/
def digitsVal (ds : JsString) : Nat :=
  ds.foldl (fun acc d => acc * 10 + (d - 48)) 0

/-- Integer part: `0`, or a non-zero digit followed by digits. -/
def parseInt (cs : JsString) : Option (JsString × JsString) :=
  match cs with
  | 48 :: rest => some ([48], rest)
  | c :: rest =>
    if 49 ≤ c ∧ c ≤ 57 then some (c :: rest.takeWhile isDigit, rest.dropWhile isDigit)
    else none
  | [] => none

/-- Optional fraction `.digits+`; `none` when a point is not followed by a digit. -/
def parseFrac (cs : JsString) : Option (JsString × JsString) :=
  match cs with
  | 46 :: rest =>
    if (rest.takeWhile isDigit).isEmpty then none
    else some (rest.takeWhile isDigit, rest.dropWhile isDigit)
  | _ => some ([], cs)

/-- Digits of an exponent after its sign. -/
def parseExpDigits (sign : Int) (cs : JsString) : Option (Int × JsString) :=
  if (cs.takeWhile isDigit).isEmpty then none
  else some (sign * (digitsVal (cs.takeWhile isDigit) : Int), cs.dropWhile isDigit)

/-- Optional exponent `[eE][+-]?digits+`. -/
def parseExp (cs : JsString) : Option (Int × JsString) :=
  match cs with
  | 101 :: 43 :: rest => parseExpDigits 1 rest
  | 101 :: 45 :: rest => parseExpDigits (-1) rest
  | 101 :: rest => parseExpDigits 1 rest
  | 69 :: 43 :: rest => parseExpDigits 1 rest
  | 69 :: 45 :: rest => parseExpDigits (-1) rest
  | 69 :: rest => parseExpDigits 1 rest
  | _ => some (0, cs)

/-- Number literal after its optional minus sign. -/
def parseUnsigned (neg : Bool) (cs : JsString) : Option (JsValue × JsString) :=
  match parseInt cs with
  | none => none
  | some (ip, r1) =>
    match parseFrac r1 with
    | none => none
    | some (fp, r2) =>
      match parseExp r2 with
      | none => none
      | some (e, r3) =>
        some (.num ⟨neg, digitsVal (ip ++ fp), e - (fp.length : Int)⟩, r3)

def parseNumber (cs : JsString) : Option (JsValue × JsString) :=
  match cs with
  | 45 :: rest => parseUnsigned true rest
  | _ => parseUnsigned false cs

/-- The literals `true`, `false`, `null`, and numbers. -/
def parseAtom (cs : JsString) : Option (JsValue × JsString) :=
  match cs with
  | 116 :: 114 :: 117 :: 101 :: rest => some (.bool true, rest)
  | 102 :: 97 :: 108 :: 115 :: 101 :: rest => some (.bool false, rest)
  | 110 :: 117 :: 108 :: 108 :: rest => some (.null, rest)
  | _ => parseNumber cs

mutual
/-- A JSON value at the head of the input (white space already skipped). -/
def parseValue : Nat → JsString → Option (JsValue × JsString)
  | 0, _ => none
  | fuel + 1, cs =>
    match cs with
    | 123 :: rest =>
      match skipWs rest with
      | 125 :: rest1 => some (.obj [], rest1)
      | rest1 => parseMembers fuel rest1 []
    | 91 :: rest =>
      match skipWs rest with
      | 93 :: rest1 => some (.arr [], rest1)
      | rest1 => parseElements fuel rest1 []
    | 34 :: rest =>
      match parseStringBody rest with
      | some (s, r) => some (.str s, r)
      | none => none
    | _ => parseAtom cs
/-- Members of an object after `{` or `,` (white space already skipped), up to `}`. -/
def parseMembers : Nat → JsString → List (JsString × JsValue) → Option (JsValue × JsString)
  | 0, _, _ => none
  | fuel + 1, cs, acc =>
    match cs with
    | 34 :: rest =>
      match parseStringBody rest with
      | none => none
      | some (k, r1) =>
        match skipWs r1 with
        | 58 :: r2 =>
          match parseValue fuel (skipWs r2) with
          | none => none
          | some (v, r3) =>
            match skipWs r3 with
            | 44 :: r4 => parseMembers fuel (skipWs r4) (acc ++ [(k, v)])
            | 125 :: r4 => some (.obj (acc ++ [(k, v)]), r4)
            | _ => none
        | _ => none
    | _ => none
/-- Elements of an array after `[` or `,` (white space already skipped), up to `]`. -/
def parseElements : Nat → JsString → List JsValue → Option (JsValue × JsString)
  | 0, _, _ => none
  | fuel + 1, cs, acc =>
    match parseValue fuel cs with
    | none => none
    | some (v, r1) =>
      match skipWs r1 with
      | 44 :: r2 => parseElements fuel (skipWs r2) (acc ++ [v])
      | 93 :: r2 => some (.arr (acc ++ [v]), r2)
      | _ => none
end

/-- Parsing of a whole text with a given amount of fuel: white space, one value, white
space, end of input. -/
def parseFuel (fuel : Nat) (text : JsString) : Option JsValue :=
  match parseValue fuel (skipWs text) with
  | some (v, rest) => if (skipWs rest).isEmpty then some v else none
  | none => none

/-- `JSON.parse(text)`; `none` is a `SyntaxError`.  The fuel is never exhausted: more of it
leaves the result unchanged (`parseFuel_stable`). -/
def parse (text : JsString) : Option JsValue :=
  parseFuel (2 * text.length + 2) text

end JSON

/-! ## Response normalisation in `callGeminiAPI` (script.js, lines 403–454) -/

/-- White space of `String.prototype.trim` and of the regular-expression class `\s`:
the `WhiteSpace` and `LineTerminator` code points of ECMA-262. -/
def isWhiteSpace (c : Nat) : Bool :=
  c == 9 || c == 10 || c == 11 || c == 12 || c == 13 || c == 32 || c == 0xA0 || c == 0x1680
    || decide (0x2000 ≤ c ∧ c ≤ 0x200A) || c == 0x2028 || c == 0x2029 || c == 0x202F
    || c == 0x205F || c == 0x3000 || c == 0xFEFF

/-- `String.prototype.trim`. -/
def trim (s : JsString) : JsString :=
  (s.dropWhile isWhiteSpace).rdropWhile isWhiteSpace

/-- The code units of three backquotes followed by `json`. -/
def fenceJson : JsString := [96, 96, 96, 106, 115, 111, 110]

/-- The code units of three backquotes. -/
def fence : JsString := [96, 96, 96]

/-- Left-to-right scan of `s.replace(/pat\s*/g, '')` for a literal `pat`: at a position where
`pat` starts, the pattern and all white space after it are dropped and the scan resumes
behind them; otherwise the code unit is kept.  The fuel bounds the number of steps. -/
def replaceFenceAux (pat : JsString) : Nat → JsString → JsString
  | 0, _ => []
  | _ + 1, [] => []
  | fuel + 1, c :: cs =>
    if pat.isPrefixOf (c :: cs) then
      replaceFenceAux pat fuel (((c :: cs).drop pat.length).dropWhile isWhiteSpace)
    else c :: replaceFenceAux pat fuel cs

/-- `s.replace(/pat\s*/g, '')` for a literal, non-empty `pat`. -/
def replaceFence (pat : JsString) (s : JsString) : JsString :=
  replaceFenceAux pat s.length s

/-- `s.match(/\{[\s\S]*\}/)`: the leftmost match starts at the first `{`, and the greedy
`[\s\S]*` lets it end at the last `}` of the text; `none` when no `}` follows the first `{`. -/
def matchBraces (s : JsString) : Option JsString :=
  match s.dropWhile (fun c => c != 123) with
  | [] => none
  | c :: rest =>
    if 125 ∈ rest then some (c :: rest.rdropWhile (fun d => d != 125)) else none

/-- Lines 405–414: trim, remove the fence markers, keep the brace span if there is one. -/
def cleanText (text : JsString) : JsString :=
  let t := replaceFence fence (replaceFence fenceJson (trim text))
  match matchBraces t with
  | some m => m
  | none => t

/-- The `try` block, lines 403–424.  `none` stands for a thrown exception: the `SyntaxError`
of `JSON.parse`, the `TypeError` of reading a property of `null`, or the explicit
`Invalid response format`. -/
def callGeminiAPI_try (text : JsString) : Option JsValue :=
  match JSON.parse (cleanText text) with
  | none => none
  | some result =>
    match getProp result (utf16 "pokemon_name") with
    | none => none
    | some name =>
      if !truthy name then none
      else
        match getProp result (utf16 "description") with
        | none => none
        | some description => if !truthy description then none else some result

/-- One entry of the fallback table. -/
def entry (name description : String) : JsValue :=
  .obj [(utf16 "pokemon_name", .str (utf16 name)), (utf16 "description", .str (utf16 description))]

/-- The fixed fallback table, lines 429–450. -/
def fallbackPokemon : List JsValue :=
  [ entry "Pikachu" "You're like Pikachu - energetic and friendly! Your bright eyes and cheerful expression show an electric personality that lights up any room.",
    entry "Eevee" "You're like Eevee - adaptable and charming! Your versatile features suggest someone who can fit into any situation with grace and style.",
    entry "Snorlax" "You're like Snorlax - calm and dependable! Your relaxed expression and gentle features show someone who brings peace and comfort to others.",
    entry "Psyduck" "You're like Psyduck - thoughtful and unique! Your expressive eyes suggest a deep thinker who sees the world in interesting ways.",
    entry "Jigglypuff" "You're like Jigglypuff - sweet and endearing! Your soft features and gentle expression show someone who brings joy and melody to life." ]

/-- Array read `xs[i]` for an integral `i`; out of range gives `undefined`. -/
def indexArray (xs : List JsValue) (i : ℤ) : JsValue :=
  if i < 0 then .undefined else xs.getD i.toNat .undefined

/-- A finite double that is not negative, written as the number `m / 2 ^ k`. -/
structure Draw where
  m : Nat
  k : Nat
deriving DecidableEq, Repr

/-- The numbers `Math.random()` can yield: the doubles in `[0, 1)`.  Each of them is
`m / 2 ^ k` with 53 significant bits at most, a quantum `2 ^ -k` no finer than the least
subnormal `2 ^ -1074`, and `m < 2 ^ k`; each such number is a double. -/
def Draw.IsRandom (d : Draw) : Prop :=
  d.m < 2 ^ 53 ∧ d.k ≤ 1074 ∧ d.m < 2 ^ d.k

instance (d : Draw) : Decidable d.IsRandom := by
  unfold Draw.IsRandom
  infer_instance

/-- Number of binary digits of `n`, by halving; the fuel `n` is never exhausted. -/
def bitLengthAux : Nat → Nat → Nat
  | 0, _ => 0
  | fuel + 1, n => if n = 0 then 0 else bitLengthAux fuel (n / 2) + 1

/-- Number of binary digits of `n`. -/
def bitLength (n : Nat) : Nat :=
  bitLengthAux n n

/-- The nearest number with 53 significant bits at most, ties to the even significand: the
IEEE 754 rounding of the integer `n` to a double (which is finite for `n < 2 ^ 1024`). -/
def roundNat53 (n : Nat) : Nat :=
  let s := bitLength n - 53
  let q := n / 2 ^ s
  let rem := n % 2 ^ s
  if 2 * rem < 2 ^ s then q * 2 ^ s
  else if 2 ^ s < 2 * rem then (q + 1) * 2 ^ s
  else if q % 2 = 0 then q * 2 ^ s else (q + 1) * 2 ^ s

/-- The index `Math.floor(Math.random() * fallbackPokemon.length)` of line 453 in double
arithmetic, for the draw `m / 2 ^ k`.  The exact product is `(m * length) / 2 ^ k`; the
double nearest to it is `roundNat53 (m * length) / 2 ^ k`, since scaling by a power of two
commutes with the rounding as long as the quantum of the result stays at `2 ^ -1074` or
above, which `k ≤ 1074` ensures; `Math.floor` of that double is the integer quotient. -/
def fallbackIndex (r : Draw) : Nat :=
  roundNat53 (r.m * fallbackPokemon.length) / 2 ^ r.k

/-- Lines 403–454 of `callGeminiAPI`: the value returned for the provider text `text` when
`Math.random()` yields `r`. -/
def callGeminiAPI_normalize (text : JsString) (r : Draw) : JsValue :=
  match callGeminiAPI_try text with
  | some result => result
  | none => indexArray fallbackPokemon (fallbackIndex r)

/-- The check of line 420 passed: an object whose `pokemon_name` and `description` are both
truthy. -/
def hasRequiredFields (v : JsValue) : Bool :=
  match v with
  | .obj members =>
    truthy (lookupMember (utf16 "pokemon_name") members)
      && truthy (lookupMember (utf16 "description") members)
  | _ => false

/-- The `AnalysisResult` of the specification: an object whose `pokemon_name` and
`description` are both non-empty strings. -/
def isAnalysisResult (v : JsValue) : Bool :=
  match v with
  | .obj members =>
    match lookupMember (utf16 "pokemon_name") members,
      lookupMember (utf16 "description") members with
    | .str name, .str description => !name.isEmpty && !description.isEmpty
    | _, _ => false
  | _ => false

/-- The `pokemon_name` of a value when it is a string. -/
def nameOf (v : JsValue) : Option JsString :=
  match getProp v (utf16 "pokemon_name") with
  | some (.str s) => some s
  | _ => none

/-- Some stretch of the text is, on its own, a text that `JSON.parse` turns into an object. -/
def containsJsonObject (text : JsString) : Bool :=
  (List.range (text.length + 1)).any fun i =>
    (List.range (text.length + 1)).any fun j =>
      match JSON.parse ((text.drop i).take j) with
      | some (.obj _) => true
      | _ => false

/-! ## Artwork lookup: `getPokemonImage` (script.js, lines 492–518) -/

/-- Lower-case form of one code unit under `String.prototype.toLowerCase`, as far as the
slug can tell: `A`–`Z` go to `a`–`z`, U+0130 goes to `i` followed by U+0307, and the Kelvin
sign U+212A goes to `k`.  These are the only code units with a letter `a`–`z` in their
Unicode lower-case mapping; every other unit is kept, since its lower-case form is again a
non-empty run of units outside `a`–`z` and `0`–`9`, which the next two steps of `cleanName`
replace by `-` and collapse exactly as they do the unit itself. -/
def lowerUnit (c : Nat) : List Nat :=
  if 65 ≤ c ∧ c ≤ 90 then [c + 32]
  else if c = 0x130 then [0x69, 0x307]
  else if c = 0x212A then [0x6B]
  else [c]

/-- `s.toLowerCase()`. -/
def toLowerCase (s : JsString) : JsString :=
  s.flatMap lowerUnit

/-- The character class `[a-z0-9]`. -/
def isAlnum (c : Nat) : Bool :=
  decide ((97 ≤ c ∧ c ≤ 122) ∨ (48 ≤ c ∧ c ≤ 57))

/-- `s.replace(/[^a-z0-9]/g, '-')`. -/
def replaceNonAlnum (s : JsString) : JsString :=
  s.map fun c => if isAlnum c then c else 45

/-- The third step, replacing the pattern `-+` globally by `-`: of every maximal run of `-`
only the last one is kept. -/
def collapseDashes : JsString → JsString
  | [] => []
  | c :: cs =>
    if c = 45 ∧ cs.head? = some 45 then collapseDashes cs else c :: collapseDashes cs

/-- Deleting the match of `^-`: one `-` at the start is removed. -/
def stripLeadingDash (s : JsString) : JsString :=
  match s with
  | 45 :: cs => cs
  | _ => s

/-- Deleting the match of `-$`: one `-` at the end is removed. -/
def stripTrailingDash (s : JsString) : JsString :=
  if s.getLast? = some 45 then s.dropLast else s

/-- The fourth step, deleting the matches of `^-` and `-$` from left to right: one `-` at the
start is removed, then one `-` at the end of what is left. -/
def stripEdgeDashes (s : JsString) : JsString :=
  stripTrailingDash (stripLeadingDash s)

/-- No two neighbours are both `-`. -/
def NoDoubleDash (s : JsString) : Prop :=
  List.Chain' (fun a b => ¬ (a = 45 ∧ b = 45)) s

/-- The slug `cleanName` of lines 495–498. -/
def cleanName (pokemonName : JsString) : JsString :=
  stripEdgeDashes (collapseDashes (replaceNonAlnum (toLowerCase pokemonName)))

/-- Outcome of one `fetch`: the promise rejects with an error of the given message, or it
resolves to a response with a status and a body text. -/
inductive FetchResult where
  | rejected (message : JsString) : FetchResult
  | response (status : Nat) (body : JsString) : FetchResult

/-- The getter `response.ok`: the status is in the range 200–299. -/
def isOk (status : Nat) : Bool :=
  decide (200 ≤ status ∧ status ≤ 299)

/-- The fixed placeholder URL of lines 511 and 516. -/
def placeholder : JsString :=
  utf16 "https://via.placeholder.com/200x200?text=Pokemon"

/-- The URL requested at line 500. -/
def lookupUrl (name : JsString) : JsString :=
  utf16 "https://pokeapi.co/api/v2/pokemon/" ++ cleanName name

/-- Lines 509–511: the official artwork, else the front sprite, else the placeholder, joined
by the short-circuit `||`.  `none` is the `TypeError` of reading a property of `undefined`
or `null`. -/
def artworkOf (data : JsValue) : Option JsValue :=
  match getProp data (utf16 "sprites") with
  | none => none
  | some sprites =>
    match getProp sprites (utf16 "other") with
    | none => none
    | some other =>
      match getProp other (utf16 "official-artwork") with
      | none => none
      | some artwork =>
        match getProp artwork (utf16 "front_default") with
        | none => none
        | some hi =>
          if truthy hi then some hi
          else
            match getProp sprites (utf16 "front_default") with
            | none => none
            | some lo => if truthy lo then some lo else some (.str placeholder)

/-- The `try` block of `getPokemonImage`, lines 494–511; `none` is a thrown exception.  A
value that is not a string has no callable `toLowerCase` (values come from `JSON.parse`),
so the call at line 495 throws. -/
def getPokemonImage_try (fetch : JsString → FetchResult) (pokemonName : JsValue) :
    Option JsValue :=
  match pokemonName with
  | .str name =>
    match fetch (lookupUrl name) with
    | .rejected _ => none
    | .response status body =>
      if !isOk status then none
      else
        match JSON.parse body with
        | none => none
        | some data => artworkOf data
  | _ => none

mutual
/-- Whether `ToString(v)` throws, as in the template literal of line 514.  An object made by
`JSON.parse` converts through `Object.prototype.toString` unless it has an own member
`toString`, which is never callable and leaves `valueOf` returning the object itself; an
array converts through `join`, which converts its elements. -/
def toStringThrows : JsValue → Bool
  | .arr items => anyToStringThrows items
  | .obj members => members.any fun kv => kv.1 == utf16 "toString"
  | _ => false
/-- Whether the conversion of some element throws. -/
def anyToStringThrows : List JsValue → Bool
  | [] => false
  | v :: vs => toStringThrows v || anyToStringThrows vs
end

/-- The function `getPokemonImage`, lines 492–518, for a lookup service `fetch`.  The result
is the value the returned promise resolves to; `none` means that the promise rejects, which
only the template literal of the `catch` block can cause. -/
def getPokemonImage (fetch : JsString → FetchResult) (pokemonName : JsValue) :
    Option JsValue :=
  match getPokemonImage_try fetch pokemonName with
  | some url => some url
  | none => if toStringThrows pokemonName then none else some (.str placeholder)

/-! ## Application state of `PokiFaceApp` -/

/-- What the code reads of a `File`: its MIME type and its size in bytes. -/
structure File where
  type : JsString
  size : Nat
deriving DecidableEq, Repr

/-- A callback handed to `setTimeout`. -/
inductive Callback where
  /-- The hiding of a toast, scheduled by `showToast`. -/
  | hideToast (type : String) : Callback
  /-- The outer callback of `displayResult`, lines 473–480. -/
  | revealResult : Callback
  /-- The inner callback of `displayResult`, lines 477–479. -/
  | showDescription : Callback
  /-- The callback of `resetApp`, lines 609–619. -/
  | resetUI : Callback
deriving DecidableEq, Repr

/-- The properties of the cached DOM elements that the modelled methods read or write. -/
structure Elements where
  /-- The class `hidden` of `apiModal`. -/
  apiModalHidden : Bool
  /-- The property `value` of `apiKeyInput`. -/
  apiKeyInputValue : JsString
  /-- The property `innerHTML` of the button `saveApiKey`. -/
  saveApiKeyHtml : String
  /-- The property `disabled` of the button `saveApiKey`. -/
  saveApiKeyDisabled : Bool
  /-- The class `show` of `errorToast`. -/
  errorToastShown : Bool
  /-- The property `textContent` of `errorMessage`. -/
  errorMessage : String
  /-- The class `show` of `successToast`. -/
  successToastShown : Bool
  /-- The property `textContent` of `successMessage`. -/
  successMessage : String
  /-- Whether `apiKeyInput` has received the focus. -/
  apiKeyInputFocused : Bool
  /-- The property `style.display` of `uploadSection`. -/
  uploadSectionDisplay : String
  /-- The property `value` of `fileInput`. -/
  fileInputValue : JsString
  /-- The property `style.display` of `comparisonSection`. -/
  comparisonSectionDisplay : String
  /-- The class `show` of `comparisonSection`. -/
  comparisonSectionShow : Bool
  /-- The value last assigned to the property `src` of `userImage`. -/
  userImageSrc : JsValue
  /-- The value last assigned to the property `src` of `pokemonImage`. -/
  pokemonImageSrc : JsValue
  /-- The property `style.display` of `pokemonImage`. -/
  pokemonImageDisplay : String
  /-- The value last assigned to the property `textContent` of `pokemonName`. -/
  pokemonNameText : JsValue
  /-- The property `style.display` of `loadingSpinner`. -/
  loadingSpinnerDisplay : String
  /-- The property `style.display` of `resultDescription`. -/
  resultDescriptionDisplay : String
  /-- The class `show` of `resultDescription`. -/
  resultDescriptionShow : Bool
  /-- The value last assigned to the property `textContent` of `pokemonDescription`. -/
  pokemonDescriptionText : JsValue
deriving Repr

/-- The application: the three fields the constructor calls the app state, the DOM, and its
surroundings (the item `gemini-api-key` of `localStorage`, the timers scheduled so far with
their delay, the URLs requested so far). -/
structure App where
  apiKey : Option JsString
  currentImageFile : Option File
  isAnalyzing : Bool
  elements : Elements
  storage : Option JsString
  timers : List (Nat × Callback)
  fetched : List JsString
deriving Repr

/-- The method `showToast`, lines 625–636. -/
def showToast (app : App) (type message : String) : App :=
  if type = "error" then
    { app with
      elements := { app.elements with errorMessage := message, errorToastShown := true }
      timers := app.timers ++ [(5000, .hideToast type)] }
  else
    { app with
      elements := { app.elements with successMessage := message, successToastShown := true }
      timers := app.timers ++ [(5000, .hideToast type)] }

/-- The method `hideApiModal`, lines 122–124. -/
def hideApiModal (app : App) : App :=
  { app with elements := { app.elements with apiModalHidden := true } }

/-! ## Upload handling: `processFile` (script.js, lines 240–258) -/

/-- A method that `processFile` invokes on the app once it has accepted a file. -/
inductive Call where
  | displayUserImage (file : File) : Call
  | analyzeFace : Call
deriving DecidableEq, Repr

/-- The array `allowedTypes` of line 242. -/
def allowedTypes : List JsString :=
  [utf16 "image/jpeg", utf16 "image/jpg", utf16 "image/png"]

/-- The constant `maxSize` of line 249. -/
def maxSize : Nat := 10 * 1024 * 1024

/-- The method `processFile`: the state it leaves and the methods it invokes, in order. -/
def processFile (app : App) (file : File) : App × List Call :=
  if !allowedTypes.contains file.type then
    (showToast app "error" "Please upload a JPG or PNG image file", [])
  else if file.size > maxSize then
    (showToast app "error" "Image size should be less than 10MB", [])
  else
    ({ app with currentImageFile := some file }, [.displayUserImage file, .analyzeFace])

/-! ## Credential handling: `saveApiKey` (script.js, lines 145–196) -/

/-- The URL of the validation probe, line 179. -/
def probeUrl (apiKey : JsString) : JsString :=
  utf16 "https://generativelanguage.googleapis.com/v1beta/models/gemini-2.5-flash:generateContent?key="
    ++ apiKey

/-- Whether `validateApiKey` throws, given the outcome of its `fetch`: the rejection is
passed on by `await`, and a response that is not `ok` makes line 194 throw. -/
def validateApiKey_throws (probe : FetchResult) : Bool :=
  match probe with
  | .rejected _ => true
  | .response status _ => !isOk status

/-- Lines 146–162 of `saveApiKey`, up to the `await`: the state then, and the key whose probe
has been sent, or `none` when the method has returned at line 150. -/
def saveApiKey_begin (app : App) : App × Option JsString :=
  let apiKey := trim app.elements.apiKeyInputValue
  if apiKey.isEmpty then (showToast app "error" "Please enter your Gemini API key", none)
  else
    ({ app with
        storage := some apiKey
        apiKey := some apiKey
        elements := { app.elements with
          saveApiKeyHtml := "<i class=\"fas fa-spinner fa-spin\"></i> Validating..."
          saveApiKeyDisabled := true }
        fetched := app.fetched ++ [probeUrl apiKey] },
      some apiKey)

/-- Lines 162–172 of `saveApiKey`, from the outcome of the probe on. -/
def saveApiKey_resume (app : App) (probe : FetchResult) : App :=
  let app1 :=
    if validateApiKey_throws probe then
      { showToast app "error" "Invalid API key. Please check and try again." with
        storage := none
        apiKey := none }
    else showToast (hideApiModal app) "success" "API key saved successfully!"
  { app1 with
    elements := { app1.elements with
      saveApiKeyHtml := "<i class=\"fas fa-rocket\"></i> Let's Go!"
      saveApiKeyDisabled := false } }

/-- The method `saveApiKey` run to completion, for the given outcome of the probe. -/
def saveApiKey (app : App) (probe : FetchResult) : App :=
  match saveApiKey_begin app with
  | (app1, none) => app1
  | (app1, some _) => saveApiKey_resume app1 probe

/-! ## The proxy function (api/getPokemonTwin/index.js) -/

/-- What the engine contributes and the code does not fix: the text of `ToString` on a value
that is not a string, and the messages of the errors the engine itself throws. -/
structure Engine where
  toStr : JsValue → JsString
  syntaxErrorMessage : JsString → JsString
  typeErrorMessage : JsValue → JsString

/-- `ToString(v)` inside a template literal or as the argument of `JSON.parse`; `none` when
it throws a `TypeError`. -/
def Engine.toString (eng : Engine) (v : JsValue) : Option JsString :=
  if toStringThrows v then none
  else
    match v with
    | .str s => some s
    | _ => some (eng.toStr v)

/-- Optional chaining `v?.key`. -/
def optProp (v : JsValue) (key : JsString) : JsValue :=
  match getProp v key with
  | some w => w
  | none => .undefined

/-- Reading `v[0]`; `none` is the `TypeError` on `undefined` and `null`. -/
def index0 (v : JsValue) : Option JsValue :=
  match v with
  | .undefined => none
  | .null => none
  | .arr items => some (items.headD .undefined)
  | .obj members => some (lookupMember (utf16 "0") members)
  | .str [] => some .undefined
  | .str (c :: _) => some (.str [c])
  | _ => some .undefined

/-- Reading `result.choices[0].message.content`, line 62. -/
def completionOf (result : JsValue) : Option JsValue :=
  match getProp result (utf16 "choices") with
  | none => none
  | some choices =>
    match index0 choices with
    | none => none
    | some first =>
      match getProp first (utf16 "message") with
      | none => none
      | some message => getProp message (utf16 "content")

/-- The value of `context.res`. -/
structure Response where
  status : Nat
  headers : List (String × String)
  body : JsValue

/-- What an invocation leaves behind: `context.res` and the URLs requested. -/
structure Context where
  res : Option Response
  fetched : List JsString

/-- The URL `apiUrl` of line 22. -/
def apiUrl : JsString :=
  utf16 "https://pokiface-ai.openai.azure.com/openai/deployments/gpt-4o-mini/chat/completions?api-version=2024-02-01"

/-- The `try` block, lines 45–69, for the outcome `upstream` of its `fetch`: the response it
sets, or the message of the error it throws. -/
def handler_try (eng : Engine) (upstream : FetchResult) : Except JsString Response :=
  match upstream with
  | .rejected message => .error message
  | .response status body =>
    if !isOk status then
      match JSON.parse body with
      | none => .error (eng.syntaxErrorMessage body)
      | some errorData =>
        match getProp errorData (utf16 "error") with
        | none => .error (eng.typeErrorMessage errorData)
        | some err =>
          match eng.toString (optProp err (utf16 "message")) with
          | none => .error (eng.typeErrorMessage (optProp err (utf16 "message")))
          | some message => .error (utf16 "Azure API Error: " ++ message)
    else
      match JSON.parse body with
      | none => .error (eng.syntaxErrorMessage body)
      | some result =>
        match completionOf result with
        | none => .error (eng.typeErrorMessage result)
        | some text =>
          match eng.toString text with
          | none => .error (eng.typeErrorMessage text)
          | some t =>
            match JSON.parse t with
            | none => .error (eng.syntaxErrorMessage t)
            | some value => .ok ⟨200, [("Content-Type", "application/json")], value⟩

/-- The exported function, lines 3–78, for the request body `body` (`undefined` when the
request has none) and the outcome of the call to the provider.  `none` means that the
function raises; only the template literal of line 36, which is outside the `try` block, can
do that. -/
def handler (eng : Engine) (body : JsValue) (upstream : FetchResult) : Option Context :=
  let base64Image := optProp body (utf16 "image")
  let imageMimeType := optProp body (utf16 "mimeType")
  if !truthy base64Image || !truthy imageMimeType then
    some ⟨some ⟨400, [], .str (utf16 "Please pass an image and mimeType in the request body")⟩, []⟩
  else if toStringThrows imageMimeType || toStringThrows base64Image then none
  else
    match handler_try eng upstream with
    | .ok response => some ⟨some response, [apiUrl]⟩
    | .error message =>
      some ⟨some ⟨500, [], .str (utf16 "Error calling AI service: " ++ message)⟩, [apiUrl]⟩

/-- An engine for concrete runs. -/
def sampleEngine : Engine :=
  ⟨fun _ => utf16 "[object Object]", fun _ => utf16 "Unexpected token",
    fun _ => utf16 "Cannot read properties of undefined"⟩

/-- A concrete application state: no key, no image, the modal open, no toast shown. -/
def sampleApp : App :=
  { apiKey := none
    currentImageFile := none
    isAnalyzing := false
    elements :=
      { apiModalHidden := false
        apiKeyInputValue := []
        saveApiKeyHtml := "<i class=\"fas fa-rocket\"></i> Let's Go!"
        saveApiKeyDisabled := false
        errorToastShown := false
        errorMessage := ""
        successToastShown := false
        successMessage := ""
        apiKeyInputFocused := false
        uploadSectionDisplay := ""
        fileInputValue := []
        comparisonSectionDisplay := "none"
        comparisonSectionShow := false
        userImageSrc := .str []
        pokemonImageSrc := .str []
        pokemonImageDisplay := "none"
        pokemonNameText := .str []
        loadingSpinnerDisplay := "none"
        resultDescriptionDisplay := "none"
        resultDescriptionShow := false
        pokemonDescriptionText := .str [] }
    storage := none
    timers := []
    fetched := [] }

/-! ## Analysis and display: `analyzeFace`, `callGeminiAPI`, `displayResult`, `resetApp` -/

/-- The method `hideToast`, lines 641–644. -/
def hideToast (app : App) (type : String) : App :=
  if type = "error" then
    { app with elements := { app.elements with errorToastShown := false } }
  else
    { app with elements := { app.elements with successToastShown := false } }

/-- The method `showApiModal`, lines 108–117. -/
def showApiModal (app : App) : App :=
  let app1 :=
    { app with
      elements := { app.elements with apiModalHidden := false, apiKeyInputFocused := true } }
  match app1.storage with
  | some savedApiKey =>
    if savedApiKey.isEmpty then app1
    else { app1 with elements := { app1.elements with apiKeyInputValue := savedApiKey } }
  | none => app1

/-- The method `showLoadingState`, lines 523–528. -/
def showLoadingState (app : App) : App :=
  { app with
    elements := { app.elements with
      loadingSpinnerDisplay := "flex"
      pokemonImageDisplay := "none"
      resultDescriptionDisplay := "none"
      resultDescriptionShow := false } }

/-- The method `hideLoadingState`, lines 533–535. -/
def hideLoadingState (app : App) : App :=
  { app with elements := { app.elements with loadingSpinnerDisplay := "none" } }

/-- The run of a scheduled callback on the state in which it fires. -/
def fire (app : App) : Callback → App
  | .hideToast type => hideToast app type
  | .revealResult =>
    { app with
      elements := { app.elements with
        pokemonImageDisplay := "block"
        resultDescriptionDisplay := "block" }
      timers := app.timers ++ [(100, .showDescription)] }
  | .showDescription =>
    { app with elements := { app.elements with resultDescriptionShow := true } }
  | .resetUI =>
    hideLoadingState
      { app with
        elements := { app.elements with
          comparisonSectionDisplay := "none"
          uploadSectionDisplay := "block"
          fileInputValue := []
          pokemonImageDisplay := "none"
          resultDescriptionDisplay := "none"
          resultDescriptionShow := false } }

/-- The URL requested at line 367. -/
def geminiUrl (apiKey : JsString) : JsString :=
  utf16 "https://generativelanguage.googleapis.com/v1beta/models/gemini-1.5-flash:generateContent?key="
    ++ apiKey

/-- Reading `data.candidates[0].content.parts[0].text`, line 399; `none` is a `TypeError`. -/
def responseText (data : JsValue) : Option JsValue :=
  match getProp data (utf16 "candidates") with
  | none => none
  | some candidates =>
    match index0 candidates with
    | none => none
    | some candidate =>
      match getProp candidate (utf16 "content") with
      | none => none
      | some content =>
        match getProp content (utf16 "parts") with
        | none => none
        | some parts =>
          match index0 parts with
          | none => none
          | some part => getProp part (utf16 "text")

/-- Lines 403–454 for any value of `text`: a value that is not a string has no callable
`trim`, so line 405 throws inside the `try` block and a fallback entry is chosen. -/
def normalizeText (text : JsValue) (r : Draw) : JsValue :=
  match text with
  | .str s => callGeminiAPI_normalize s r
  | _ => indexArray fallbackPokemon (fallbackIndex r)

/-- The method `callGeminiAPI`, lines 341–455, from the outcome `upstream` of its `fetch`
on, with `r` the value of `Math.random()`.  `none` means that the method throws: the
rejection of `fetch`, lines 394–395 for a response that is not `ok` (whether or not its body
parses), the rejection of `response.json()`, or the `TypeError` of line 399. -/
def callGeminiAPI (upstream : FetchResult) (r : Draw) : Option JsValue :=
  match upstream with
  | .rejected _ => none
  | .response status body =>
    if !isOk status then none
    else
      match JSON.parse body with
      | none => none
      | some data =>
        match responseText data with
        | none => none
        | some text => some (normalizeText text r)

/-- The request that `getPokemonImage` makes for a name: line 500 is reached only when the
name is a string. -/
def logLookup (app : App) (name : JsValue) : App :=
  match name with
  | .str n => { app with fetched := app.fetched ++ [lookupUrl n] }
  | _ => app

/-- The `try` block of `displayResult`, lines 462–480: the state when it ends, and whether
it ended by an exception.  An assignment to `textContent` or `src` converts the value to a
string and throws when that conversion does. -/
def displayResult_try (app : App) (lookup : JsString → FetchResult) (result : JsValue) :
    App × Bool :=
  match getProp result (utf16 "pokemon_name") with
  | none => (app, true)
  | some name =>
    let app0 := logLookup app name
    match getPokemonImage lookup name with
    | none => (app0, true)
    | some pokemonImage =>
      if toStringThrows name then (app0, true)
      else
        let app1 := { app0 with elements := { app0.elements with pokemonNameText := name } }
        if toStringThrows pokemonImage then (app1, true)
        else
          let app2 :=
            { app1 with elements := { app1.elements with pokemonImageSrc := pokemonImage } }
          match getProp result (utf16 "description") with
          | none => (app2, true)
          | some description =>
            if toStringThrows description then (app2, true)
            else
              let app3 :=
                { app2 with
                  elements := { app2.elements with pokemonDescriptionText := description } }
              let app4 := hideLoadingState app3
              ({ app4 with timers := app4.timers ++ [(500, .revealResult)] }, false)

/-- The method `displayResult`, lines 460–487, for the lookup service `lookup`: the state
when its promise resolves.  Its `catch` block cannot throw, so the promise never rejects. -/
def displayResult (app : App) (lookup : JsString → FetchResult) (result : JsValue) : App :=
  match displayResult_try app lookup result with
  | (app1, false) => app1
  | (app1, true) => hideLoadingState (showToast app1 "error" "Failed to load Pokémon data")

/-- What the surroundings contribute to one run of `analyzeFace`: the outcome of
`fileToBase64` (`none` when the read fails), the outcome of the provider's `fetch`, the
value of `Math.random()`, and the lookup service. -/
structure Outcomes where
  base64 : Option JsString
  provider : FetchResult
  random : Draw
  lookup : JsString → FetchResult

/-- The `try` block of `analyzeFace`, lines 303–311: the state when it ends, and whether it
ended by an exception. -/
def analyzeFace_try (app : App) (apiKey : JsString) (env : Outcomes) : App × Bool :=
  match env.base64 with
  | none => (app, true)
  | some _ =>
    let app1 := { app with fetched := app.fetched ++ [geminiUrl apiKey] }
    match callGeminiAPI env.provider env.random with
    | none => (app1, true)
    | some result => (displayResult app1 env.lookup result, false)

/-- The method `analyzeFace`, lines 288–320, run to completion without another event in
between. -/
def analyzeFace (app : App) (env : Outcomes) : App :=
  match app.apiKey with
  | none => showApiModal (showToast app "error" "Please set your API key first")
  | some apiKey =>
    if apiKey.isEmpty then showApiModal (showToast app "error" "Please set your API key first")
    else
      match app.currentImageFile with
      | none => showToast app "error" "Please upload an image first"
      | some _ =>
        let app1 := showLoadingState { app with isAnalyzing := true }
        let app3 :=
          match analyzeFace_try app1 apiKey env with
          | (app2, false) => app2
          | (app2, true) =>
            hideLoadingState (showToast app2 "error" "Failed to analyze image. Please try again.")
        { app3 with isAnalyzing := false }

/-- The method `resetApp`, lines 601–620, up to the scheduling of its callback. -/
def resetApp (app : App) : App :=
  { app with
    currentImageFile := none
    isAnalyzing := false
    elements := { app.elements with comparisonSectionShow := false }
    timers := app.timers ++ [(300, .resetUI)] }

/-- A concrete application state with a key and an uploaded image. -/
def readyApp : App :=
  { sampleApp with
    apiKey := some (utf16 "key")
    currentImageFile := some ⟨utf16 "image/png", 2048⟩ }

/-- A concrete application state showing a result. -/
def resultApp : App :=
  { readyApp with
    elements := { readyApp.elements with
      uploadSectionDisplay := "none"
      comparisonSectionDisplay := "block"
      comparisonSectionShow := true
      userImageSrc := .str (utf16 "data:image/png;base64,QUJD")
      pokemonImageSrc := .str (utf16 "https://img.example/25.png")
      pokemonImageDisplay := "block"
      pokemonNameText := .str (utf16 "Pikachu")
      resultDescriptionDisplay := "block"
      resultDescriptionShow := true
      pokemonDescriptionText := .str (utf16 "You're like Pikachu") } }

/-! # Theorems -/

/-! ## Lemmas on the text clean-up -/

theorem replaceFenceAux_fuel (pat : JsString) (hp : pat ≠ []) :
    ∀ (f g : Nat) (l : JsString), l.length ≤ f → l.length ≤ g →
      replaceFenceAux pat f l = replaceFenceAux pat g l := by
  intro f
  induction f with
  | zero =>
    intro g l hf _
    have hl : l = [] := List.length_eq_zero.mp (Nat.le_zero.mp hf)
    subst hl
    cases g <;> rfl
  | succ f ih =>
    intro g l hf hg
    cases l with
    | nil => cases g <;> rfl
    | cons c cs =>
      cases g with
      | zero => simp at hg
      | succ g =>
        have hlen : 0 < pat.length := List.length_pos.mpr hp
        have hR : (((c :: cs).drop pat.length).dropWhile isWhiteSpace).length ≤ cs.length := by
          have h1 := (List.dropWhile_sublist isWhiteSpace (l := (c :: cs).drop pat.length)).length_le
          have h2 : ((c :: cs).drop pat.length).length = (c :: cs).length - pat.length :=
            List.length_drop _ _
          simp only [List.length_cons] at h2
          omega
        simp only [List.length_cons, Nat.add_le_add_iff_right] at hf hg
        simp only [replaceFenceAux]
        rw [ih g _ (le_trans hR hf) (le_trans hR hg), ih g cs hf hg]

theorem replaceFence_nil (pat : JsString) : replaceFence pat [] = [] := rfl

theorem replaceFence_cons (pat : JsString) (hp : pat ≠ []) (c : Nat) (cs : JsString) :
    replaceFence pat (c :: cs) =
      if pat.isPrefixOf (c :: cs) then
        replaceFence pat (((c :: cs).drop pat.length).dropWhile isWhiteSpace)
      else c :: replaceFence pat cs := by
  have hlen : 0 < pat.length := List.length_pos.mpr hp
  have hR : (((c :: cs).drop pat.length).dropWhile isWhiteSpace).length ≤ cs.length := by
    have h1 := (List.dropWhile_sublist isWhiteSpace (l := (c :: cs).drop pat.length)).length_le
    have h2 : ((c :: cs).drop pat.length).length = (c :: cs).length - pat.length :=
      List.length_drop _ _
    simp only [List.length_cons] at h2
    omega
  unfold replaceFence
  simp only [List.length_cons, replaceFenceAux]
  rw [replaceFenceAux_fuel pat hp cs.length _ _ hR le_rfl]

theorem dropWhile_append_stop (p : Nat → Bool) (a : JsString) (x : Nat) (rest : JsString)
    (hx : p x = false) : (a ++ x :: rest).dropWhile p = a.dropWhile p ++ x :: rest := by
  induction a with
  | nil => simp [List.dropWhile_cons, hx]
  | cons c a ih =>
    by_cases hc : p c
    · simp [List.dropWhile_cons, hc, ih]
    · simp [List.dropWhile_cons, hc]

theorem rdropWhile_append_stop (p : Nat → Bool) (l : JsString) (x : Nat) (b : JsString)
    (hx : p x = false) : (l ++ x :: b).rdropWhile p = l ++ x :: b.rdropWhile p := by
  unfold List.rdropWhile
  have h : (l ++ x :: b).reverse = b.reverse ++ x :: l.reverse := by simp
  rw [h, dropWhile_append_stop p _ x _ hx]
  simp

theorem not_mem_of_sublist {x : Nat} {s t : JsString} (h : s.Sublist t) (hx : x ∉ t) : x ∉ s :=
  fun hs => hx (h.subset hs)

theorem trim_wrapped (a mid b : JsString) (ha : 123 ∉ a) (hb : 125 ∉ b) :
    ∃ a1 b1, 123 ∉ a1 ∧ 125 ∉ b1 ∧
      trim (a ++ 123 :: (mid ++ 125 :: b)) = a1 ++ 123 :: (mid ++ 125 :: b1) := by
  refine ⟨a.dropWhile isWhiteSpace, b.rdropWhile isWhiteSpace, ?_, ?_, ?_⟩
  · exact not_mem_of_sublist (List.dropWhile_sublist _) ha
  · exact not_mem_of_sublist (List.rdropWhile_prefix _ _).sublist hb
  · unfold trim
    rw [dropWhile_append_stop _ _ _ _ (by decide)]
    have h : List.dropWhile isWhiteSpace a ++ 123 :: (mid ++ 125 :: b)
        = (List.dropWhile isWhiteSpace a ++ 123 :: mid) ++ 125 :: b := by simp
    rw [h, rdropWhile_append_stop _ _ _ _ (by decide)]
    simp

theorem rest_length_le (pat : JsString) (hp : pat ≠ []) (c : Nat) (cs : JsString) :
    (((c :: cs).drop pat.length).dropWhile isWhiteSpace).length ≤ cs.length := by
  have hlen : 0 < pat.length := List.length_pos.mpr hp
  have h1 := (List.dropWhile_sublist isWhiteSpace (l := (c :: cs).drop pat.length)).length_le
  have h2 : ((c :: cs).drop pat.length).length = (c :: cs).length - pat.length :=
    List.length_drop _ _
  simp only [List.length_cons] at h2
  omega

theorem replaceFence_sublist (pat : JsString) (hp : pat ≠ []) :
    ∀ (n : Nat) (s : JsString), s.length ≤ n → (replaceFence pat s).Sublist s := by
  intro n
  induction n with
  | zero =>
    intro s hs
    have : s = [] := List.length_eq_zero.mp (Nat.le_zero.mp hs)
    subst this
    exact List.Sublist.refl _
  | succ n ih =>
    intro s hs
    cases s with
    | nil => exact List.Sublist.refl _
    | cons c cs =>
      simp only [List.length_cons, Nat.add_le_add_iff_right] at hs
      rw [replaceFence_cons pat hp]
      split
      · exact ((ih _ (le_trans (rest_length_le pat hp c cs) hs)).trans
          (List.dropWhile_sublist _)).trans (List.drop_sublist _ _)
      · exact (ih cs hs).cons₂ c

theorem prefix_of_prefix_append_stop (pat a rest : JsString) (x : Nat) (hx : x ∉ pat)
    (h : pat <+: a ++ x :: rest) : pat <+: a := by
  rcases List.prefix_or_prefix_of_prefix h (List.prefix_append a (x :: rest)) with h1 | h1
  · exact h1
  · obtain ⟨t, ht⟩ := h1
    subst ht
    rw [List.prefix_append_right_inj] at h
    cases t with
    | nil => simp
    | cons y t =>
      rw [List.cons_prefix_cons] at h
      exact absurd (by simp [h.1]) hx

theorem replaceFence_pre (pat : JsString) (hp : pat ≠ []) (h123 : 123 ∉ pat) :
    ∀ (n : Nat) (a : JsString), a.length ≤ n → 123 ∉ a →
      ∃ a1, 123 ∉ a1 ∧ ∀ rest,
        replaceFence pat (a ++ 123 :: rest) = a1 ++ replaceFence pat (123 :: rest) := by
  intro n
  induction n with
  | zero =>
    intro a hlen _
    have : a = [] := List.length_eq_zero.mp (Nat.le_zero.mp hlen)
    subst this
    exact ⟨[], by simp, fun rest => by simp⟩
  | succ n ih =>
    intro a hlen ha
    cases a with
    | nil => exact ⟨[], by simp, fun rest => by simp⟩
    | cons c a1 =>
      simp only [List.length_cons, Nat.add_le_add_iff_right] at hlen
      by_cases hpre : pat <+: c :: a1
      · obtain ⟨a2, ha2⟩ := hpre
        have hlen2 : (a2.dropWhile isWhiteSpace).length ≤ n := by
          have h1 := (List.dropWhile_sublist isWhiteSpace (l := a2)).length_le
          have h2 : (pat ++ a2).length = (c :: a1).length := by rw [ha2]
          have h3 : 0 < pat.length := List.length_pos.mpr hp
          simp only [List.length_append, List.length_cons] at h2
          omega
        have hmem2 : 123 ∉ a2.dropWhile isWhiteSpace := by
          refine not_mem_of_sublist ((List.dropWhile_sublist _).trans ?_) ha
          rw [← ha2]
          exact List.sublist_append_right _ _
        obtain ⟨a3, ha3, h3⟩ := ih _ hlen2 hmem2
        refine ⟨a3, ha3, fun rest => ?_⟩
        have hcons : (c :: a1) ++ 123 :: rest = c :: (a1 ++ 123 :: rest) := rfl
        rw [hcons, replaceFence_cons pat hp]
        have hp1 : pat.isPrefixOf (c :: (a1 ++ 123 :: rest)) = true := by
          rw [List.isPrefixOf_iff_prefix, ← hcons, ← ha2, List.append_assoc]
          exact List.prefix_append _ _
        rw [if_pos hp1, ← hcons, ← ha2, List.append_assoc, List.drop_left,
          dropWhile_append_stop _ _ _ _ (by decide)]
        exact h3 rest
      · have hc : 123 ∉ a1 := fun h => ha (List.mem_cons_of_mem _ h)
        obtain ⟨a3, ha3, h3⟩ := ih a1 hlen hc
        refine ⟨c :: a3, ?_, fun rest => ?_⟩
        · intro h
          rcases List.mem_cons.mp h with h | h
          · exact ha (by simp [← h])
          · exact ha3 h
        · have hcons : (c :: a1) ++ 123 :: rest = c :: (a1 ++ 123 :: rest) := rfl
          rw [hcons, replaceFence_cons pat hp]
          have hp1 : ¬ pat.isPrefixOf (c :: (a1 ++ 123 :: rest)) = true := by
            rw [List.isPrefixOf_iff_prefix, ← hcons]
            exact fun h => hpre (prefix_of_prefix_append_stop pat _ rest 123 h123 h)
          rw [if_neg hp1, h3 rest]
          rfl

theorem replaceFence_mid (pat : JsString) (hpat : fence <+: pat) :
    ∀ (s : JsString), ¬ fence <:+: s ++ [125] → ∀ b,
      replaceFence pat (s ++ 125 :: b) = s ++ 125 :: replaceFence pat b := by
  have hp : pat ≠ [] := by
    rintro rfl
    simp [fence] at hpat
  intro s
  induction s with
  | nil =>
    intro _ b
    have h : ¬ pat.isPrefixOf (125 :: b) = true := by
      rw [List.isPrefixOf_iff_prefix]
      intro h
      have := hpat.trans h
      simp [fence] at this
    show replaceFence pat (125 :: b) = 125 :: replaceFence pat b
    rw [replaceFence_cons pat hp, if_neg h]
  | cons c s ih =>
    intro hs b
    have hs1 : ¬ fence <:+: s ++ [125] := fun h => hs (h.trans (List.suffix_cons c _).isInfix)
    have h : ¬ pat.isPrefixOf (c :: (s ++ 125 :: b)) = true := by
      rw [List.isPrefixOf_iff_prefix]
      intro h
      have h2 := hpat.trans h
      apply hs
      cases s with
      | nil => simp [fence] at h2
      | cons x s =>
        cases s with
        | nil => simp [fence] at h2
        | cons y s =>
          simp only [fence, List.cons_append, List.cons_prefix_cons] at h2
          obtain ⟨h1, h2, h3, -⟩ := h2
          subst h1 h2 h3
          exact (List.prefix_append [96, 96, 96] (s ++ [125])).isInfix
    show replaceFence pat (c :: (s ++ 125 :: b)) = c :: (s ++ 125 :: replaceFence pat b)
    rw [replaceFence_cons pat hp, if_neg h, ih hs1 b]

theorem replaceFence_wrapped (pat : JsString) (hpat : fence <+: pat) (h123 : 123 ∉ pat)
    (a mid b : JsString) (ha : 123 ∉ a) (hb : 125 ∉ b)
    (hmid : ¬ fence <:+: 123 :: (mid ++ [125])) :
    ∃ a1 b1, 123 ∉ a1 ∧ 125 ∉ b1 ∧
      replaceFence pat (a ++ 123 :: (mid ++ 125 :: b)) = a1 ++ 123 :: (mid ++ 125 :: b1) := by
  have hp : pat ≠ [] := by
    rintro rfl
    simp [fence] at hpat
  obtain ⟨a1, ha1, h1⟩ := replaceFence_pre pat hp h123 a.length a le_rfl ha
  refine ⟨a1, replaceFence pat b, ha1, ?_, ?_⟩
  · exact not_mem_of_sublist (replaceFence_sublist pat hp _ b le_rfl) hb
  · rw [h1]
    have := replaceFence_mid pat hpat (123 :: mid) hmid b
    simp only [List.cons_append] at this
    rw [this]

theorem matchBraces_wrapped (a mid b : JsString) (ha : 123 ∉ a) (hb : 125 ∉ b) :
    matchBraces (a ++ 123 :: (mid ++ 125 :: b)) = some (123 :: (mid ++ [125])) := by
  have h1 : (a ++ 123 :: (mid ++ 125 :: b)).dropWhile (fun c => c != 123)
      = 123 :: (mid ++ 125 :: b) := by
    rw [List.dropWhile_append_of_pos]
    · simp [List.dropWhile_cons]
    · intro x hx
      have : x ≠ 123 := fun h => ha (h ▸ hx)
      simpa using this
  have h2 : (mid ++ 125 :: b).rdropWhile (fun d => d != 125) = mid ++ [125] := by
    rw [rdropWhile_append_stop _ _ _ _ (by decide)]
    have : b.rdropWhile (fun d => d != 125) = [] := by
      rw [List.rdropWhile_eq_nil_iff]
      intro x hx
      have : x ≠ 125 := fun h => hb (h ▸ hx)
      simpa using this
    rw [this]
  unfold matchBraces
  rw [h1]
  simp only [h2]
  simp

theorem exists_mid_of_head_getLast (o : JsString) (hhead : o.head? = some 123)
    (hlast : o.getLast? = some 125) : ∃ mid, o = 123 :: (mid ++ [125]) := by
  cases o with
  | nil => simp at hhead
  | cons c t =>
    simp only [List.head?_cons, Option.some.injEq] at hhead
    subst hhead
    rcases List.eq_nil_or_concat t with rfl | ⟨mid, x, rfl⟩
    · simp at hlast
    · refine ⟨mid, ?_⟩
      simp only [List.concat_eq_append] at hlast ⊢
      have : (123 :: (mid ++ [x])).getLast? = some x := by
        rw [← List.cons_append, List.getLast?_append]
        simp
      rw [this] at hlast
      simp only [Option.some.injEq] at hlast
      rw [hlast]

theorem cleanText_wrapped (pre mid post : JsString) (hpre : 123 ∉ pre) (hpost : 125 ∉ post)
    (hfence : ¬ fence <:+: 123 :: (mid ++ [125])) :
    cleanText (pre ++ 123 :: (mid ++ 125 :: post)) = 123 :: (mid ++ [125]) := by
  obtain ⟨a1, b1, ha1, hb1, h1⟩ := trim_wrapped pre mid post hpre hpost
  obtain ⟨a2, b2, ha2, hb2, h2⟩ :=
    replaceFence_wrapped fenceJson (by simp [fence, fenceJson]) (by decide) a1 mid b1 ha1 hb1 hfence
  obtain ⟨a3, b3, ha3, hb3, h3⟩ :=
    replaceFence_wrapped fence (List.prefix_refl _) (by decide) a2 mid b2 ha2 hb2 hfence
  unfold cleanText
  simp only [h1, h2, h3, matchBraces_wrapped a3 mid b3 ha3 hb3]

theorem callGeminiAPI_normalize_of_try (text : JsString) (r : Draw) (v : JsValue)
    (h : callGeminiAPI_try text = some v) : callGeminiAPI_normalize text r = v := by
  simp [callGeminiAPI_normalize, h]

theorem callGeminiAPI_try_of_parse (text : JsString) (members : List (JsString × JsValue))
    (hparse : JSON.parse (cleanText text) = some (.obj members))
    (hname : truthy (lookupMember (utf16 "pokemon_name") members) = true)
    (hdesc : truthy (lookupMember (utf16 "description") members) = true) :
    callGeminiAPI_try text = some (.obj members) := by
  simp [callGeminiAPI_try, hparse, getProp, hname, hdesc]

/-- C1 (amended): a provider text made of commentary without `{`, then the text `o` of one
JSON object whose `pokemon_name` and `description` are non-empty strings and which contains
no run of three backquotes, then commentary without `}`, is normalised to the parsed object:
the result carries exactly that object's `pokemon_name` and `description`.  Fence markers in
the commentary are covered, since they contain no brace. -/
theorem callGeminiAPI_normalize_extracts (pre o post : JsString)
    (members : List (JsString × JsValue)) (name description : JsString) (r : Draw)
    (hpre : 123 ∉ pre) (hpost : 125 ∉ post)
    (hhead : o.head? = some 123) (hlast : o.getLast? = some 125)
    (hfence : ¬ fence <:+: o)
    (hparse : JSON.parse o = some (.obj members))
    (hname : lookupMember (utf16 "pokemon_name") members = .str name) (hname1 : name ≠ [])
    (hdesc : lookupMember (utf16 "description") members = .str description)
    (hdesc1 : description ≠ []) :
    callGeminiAPI_normalize (pre ++ o ++ post) r = .obj members ∧
      getProp (callGeminiAPI_normalize (pre ++ o ++ post) r) (utf16 "pokemon_name")
        = some (.str name) ∧
      getProp (callGeminiAPI_normalize (pre ++ o ++ post) r) (utf16 "description")
        = some (.str description) := by
  obtain ⟨mid, rfl⟩ := exists_mid_of_head_getLast o hhead hlast
  have hclean : cleanText (pre ++ (123 :: (mid ++ [125])) ++ post) = 123 :: (mid ++ [125]) := by
    have := cleanText_wrapped pre mid post hpre hpost hfence
    simpa using this
  have htry : callGeminiAPI_try (pre ++ (123 :: (mid ++ [125])) ++ post) = some (.obj members) := by
    apply callGeminiAPI_try_of_parse
    · rw [hclean]; exact hparse
    · rw [hname]; cases name with
      | nil => exact absurd rfl hname1
      | cons _ _ => rfl
    · rw [hdesc]; cases description with
      | nil => exact absurd rfl hdesc1
      | cons _ _ => rfl
  rw [callGeminiAPI_normalize_of_try _ r _ htry]
  exact ⟨rfl, by simp [getProp, hname], by simp [getProp, hdesc]⟩

/-- Witness for C1: the scenario of the specification, a fenced object between blanks. -/
theorem callGeminiAPI_normalize_extracts_witness :
    callGeminiAPI_normalize
        (utf16 "  ```json\n" ++ utf16 "\x7b\"pokemon_name\":\"Snorlax\",\"description\":\"calm\"\x7d"
          ++ utf16 "\n```  ") ⟨0, 0⟩
      = entry "Snorlax" "calm" ∧
    getProp (callGeminiAPI_normalize
        (utf16 "  ```json\n" ++ utf16 "\x7b\"pokemon_name\":\"Snorlax\",\"description\":\"calm\"\x7d"
          ++ utf16 "\n```  ") ⟨0, 0⟩) (utf16 "pokemon_name") = some (.str (utf16 "Snorlax")) ∧
    getProp (callGeminiAPI_normalize
        (utf16 "  ```json\n" ++ utf16 "\x7b\"pokemon_name\":\"Snorlax\",\"description\":\"calm\"\x7d"
          ++ utf16 "\n```  ") ⟨0, 0⟩) (utf16 "description") = some (.str (utf16 "calm")) :=
  callGeminiAPI_normalize_extracts (utf16 "  ```json\n")
    (utf16 "\x7b\"pokemon_name\":\"Snorlax\",\"description\":\"calm\"\x7d") (utf16 "\n```  ")
    [(utf16 "pokemon_name", .str (utf16 "Snorlax")), (utf16 "description", .str (utf16 "calm"))]
    (utf16 "Snorlax") (utf16 "calm") ⟨0, 0⟩
    (by decide) (by decide) (by rfl) (by rfl) (by decide) (by rfl) (by rfl) (by decide) (by rfl)
    (by decide)

set_option maxRecDepth 100000 in
/-- C1 (counterexample): commentary that contains braces defeats the extraction.  The object
alone parses to Snorlax/calm, yet with `Here is {your} match: ` in front the brace span runs
from the first `{` to the last `}`, parsing fails, and a fallback entry is returned. -/
theorem callGeminiAPI_normalize_braces_in_commentary :
    JSON.parse (utf16 "\x7b\"pokemon_name\":\"Snorlax\",\"description\":\"calm\"\x7d")
      = some (entry "Snorlax" "calm") ∧
    cleanText (utf16 "Here is \x7byour\x7d match: \x7b\"pokemon_name\":\"Snorlax\",\"description\":\"calm\"\x7d")
      = utf16 "\x7byour\x7d match: \x7b\"pokemon_name\":\"Snorlax\",\"description\":\"calm\"\x7d" ∧
    callGeminiAPI_try (utf16 "Here is \x7byour\x7d match: \x7b\"pokemon_name\":\"Snorlax\",\"description\":\"calm\"\x7d")
      = none ∧
    getProp (callGeminiAPI_normalize
        (utf16 "Here is \x7byour\x7d match: \x7b\"pokemon_name\":\"Snorlax\",\"description\":\"calm\"\x7d") ⟨0, 0⟩)
      (utf16 "pokemon_name") = some (.str (utf16 "Pikachu")) := by
  refine ⟨by rfl, by rfl, by rfl, ?_⟩
  have h : callGeminiAPI_try (utf16 "Here is \x7byour\x7d match: \x7b\"pokemon_name\":\"Snorlax\",\"description\":\"calm\"\x7d")
      = none := by rfl
  simp only [callGeminiAPI_normalize, h]
  simp [indexArray, fallbackPokemon]
  rfl


namespace JSON

theorem consUnit_some (u : Option Nat) (p : Option (JsString × JsString)) (s r : JsString)
    (h : consUnit u p = some (s, r)) : ∃ s1, p = some (s1, r) := by
  unfold consUnit at h
  split at h
  · simp only [Option.some.injEq, Prod.mk.injEq] at h
    obtain ⟨-, rfl⟩ := h
    exact ⟨_, rfl⟩
  · simp at h

theorem parseStringBody_suffix :
    ∀ (n : Nat) (cs : JsString), cs.length ≤ n → ∀ s r,
      parseStringBody cs = some (s, r) → r <:+ cs ∧ r.length < cs.length := by
  intro n
  induction n using Nat.strong_induction_on with
  | _ n ih =>
    intro cs hlen s r h
    unfold parseStringBody at h
    split at h
    · simp at h
    · simp only [Option.some.injEq, Prod.mk.injEq] at h
      obtain ⟨-, rfl⟩ := h
      exact ⟨List.suffix_cons _ _, by simp⟩
    · rename_i a b c d rest
      obtain ⟨s1, hs⟩ := consUnit_some _ _ _ _ h
      simp only [List.length_cons] at hlen
      obtain ⟨h1, h2⟩ := ih rest.length (by omega) rest le_rfl s1 r hs
      exact ⟨h1.trans ⟨[92, 117, a, b, c, d], rfl⟩, by simp only [List.length_cons]; omega⟩
    · rename_i e rest hne
      obtain ⟨s1, hs⟩ := consUnit_some _ _ _ _ h
      simp only [List.length_cons] at hlen
      obtain ⟨h1, h2⟩ := ih rest.length (by omega) rest le_rfl s1 r hs
      exact ⟨h1.trans ⟨[92, e], rfl⟩, by simp only [List.length_cons]; omega⟩
    · rename_i c rest h34 h92u h92
      split at h
      · simp at h
      · obtain ⟨s1, hs⟩ := consUnit_some _ _ _ _ h
        simp only [List.length_cons] at hlen
        obtain ⟨h1, h2⟩ := ih rest.length (by omega) rest le_rfl s1 r hs
        exact ⟨h1.trans (List.suffix_cons _ _), by simp only [List.length_cons]; omega⟩

theorem parseInt_suffix (cs ip r : JsString) (h : parseInt cs = some (ip, r)) :
    r <:+ cs ∧ r.length < cs.length := by
  unfold parseInt at h
  split at h
  · simp only [Option.some.injEq, Prod.mk.injEq] at h
    obtain ⟨-, rfl⟩ := h
    exact ⟨List.suffix_cons _ _, by simp⟩
  · rename_i c rest _
    split at h
    · simp only [Option.some.injEq, Prod.mk.injEq] at h
      obtain ⟨-, rfl⟩ := h
      refine ⟨(List.dropWhile_suffix _).trans (List.suffix_cons _ _), ?_⟩
      have := (List.dropWhile_suffix (l := rest) isDigit).length_le
      simp only [List.length_cons]
      omega
    · simp at h
  · simp at h

theorem parseFrac_suffix (cs fp r : JsString) (h : parseFrac cs = some (fp, r)) : r <:+ cs := by
  unfold parseFrac at h
  split at h
  · split at h
    · simp at h
    · simp only [Option.some.injEq, Prod.mk.injEq] at h
      obtain ⟨-, rfl⟩ := h
      exact (List.dropWhile_suffix _).trans (List.suffix_cons _ _)
  · simp only [Option.some.injEq, Prod.mk.injEq] at h
    obtain ⟨-, rfl⟩ := h
    exact List.suffix_refl _

theorem parseExpDigits_suffix (sign : Int) (cs : JsString) (e : Int) (r : JsString)
    (h : parseExpDigits sign cs = some (e, r)) : r <:+ cs := by
  unfold parseExpDigits at h
  split at h
  · simp at h
  · simp only [Option.some.injEq, Prod.mk.injEq] at h
    obtain ⟨-, rfl⟩ := h
    exact List.dropWhile_suffix _

theorem parseExp_suffix (cs : JsString) (e : Int) (r : JsString)
    (h : parseExp cs = some (e, r)) : r <:+ cs := by
  unfold parseExp at h
  split at h
  · exact (parseExpDigits_suffix _ _ _ _ h).trans ⟨[101, 43], rfl⟩
  · exact (parseExpDigits_suffix _ _ _ _ h).trans ⟨[101, 45], rfl⟩
  · exact (parseExpDigits_suffix _ _ _ _ h).trans ⟨[101], rfl⟩
  · exact (parseExpDigits_suffix _ _ _ _ h).trans ⟨[69, 43], rfl⟩
  · exact (parseExpDigits_suffix _ _ _ _ h).trans ⟨[69, 45], rfl⟩
  · exact (parseExpDigits_suffix _ _ _ _ h).trans ⟨[69], rfl⟩
  · simp only [Option.some.injEq, Prod.mk.injEq] at h
    obtain ⟨-, rfl⟩ := h
    exact List.suffix_refl _

theorem parseUnsigned_suffix (neg : Bool) (cs : JsString) (v : JsValue) (r : JsString)
    (h : parseUnsigned neg cs = some (v, r)) :
    r <:+ cs ∧ r.length < cs.length ∧ ∃ n, v = .num n := by
  unfold parseUnsigned at h
  split at h
  · simp at h
  · rename_i ip r1 h1
    split at h
    · simp at h
    · rename_i fp r2 h2
      split at h
      · simp at h
      · rename_i e r3 h3
        simp only [Option.some.injEq, Prod.mk.injEq] at h
        obtain ⟨rfl, rfl⟩ := h
        obtain ⟨a1, a2⟩ := parseInt_suffix _ _ _ h1
        have b1 := parseFrac_suffix _ _ _ h2
        have c1 := parseExp_suffix _ _ _ h3
        refine ⟨(c1.trans b1).trans a1, ?_, _, rfl⟩
        have := b1.length_le
        have := c1.length_le
        omega

theorem parseNumber_suffix (cs : JsString) (v : JsValue) (r : JsString)
    (h : parseNumber cs = some (v, r)) :
    r <:+ cs ∧ r.length < cs.length ∧ ∃ n, v = .num n := by
  unfold parseNumber at h
  split at h
  · obtain ⟨h1, h2, h3⟩ := parseUnsigned_suffix _ _ _ _ h
    exact ⟨h1.trans (List.suffix_cons _ _), by simp only [List.length_cons]; omega, h3⟩
  · exact parseUnsigned_suffix _ _ _ _ h

theorem parseAtom_suffix (cs : JsString) (v : JsValue) (r : JsString)
    (h : parseAtom cs = some (v, r)) :
    r <:+ cs ∧ r.length < cs.length ∧ ∀ m, v ≠ .obj m := by
  unfold parseAtom at h
  split at h
  · simp only [Option.some.injEq, Prod.mk.injEq] at h
    obtain ⟨rfl, rfl⟩ := h
    exact ⟨⟨[116, 114, 117, 101], rfl⟩, by simp only [List.length_cons]; omega, fun m hm => by cases hm⟩
  · simp only [Option.some.injEq, Prod.mk.injEq] at h
    obtain ⟨rfl, rfl⟩ := h
    exact ⟨⟨[102, 97, 108, 115, 101], rfl⟩, by simp only [List.length_cons]; omega, fun m hm => by cases hm⟩
  · simp only [Option.some.injEq, Prod.mk.injEq] at h
    obtain ⟨rfl, rfl⟩ := h
    exact ⟨⟨[110, 117, 108, 108], rfl⟩, by simp only [List.length_cons]; omega, fun m hm => by cases hm⟩
  · obtain ⟨h1, h2, n, rfl⟩ := parseNumber_suffix _ _ _ h
    exact ⟨h1, h2, fun m hm => by cases hm⟩

theorem skipWs_suffix (cs : JsString) : skipWs cs <:+ cs := List.dropWhile_suffix _

theorem suffix_of_skipWs_eq {cs rest : JsString} {c : Nat} (h : skipWs cs = c :: rest) :
    rest <:+ cs ∧ rest.length < cs.length ∧ c ∈ cs := by
  have h1 : c :: rest <:+ cs := h ▸ skipWs_suffix cs
  refine ⟨(List.suffix_cons _ _).trans h1, ?_, h1.subset (List.mem_cons_self _ _)⟩
  have := h1.length_le
  simp only [List.length_cons] at this
  omega

theorem parse_suffix_aux : ∀ f : Nat,
    (∀ cs v r, parseValue f cs = some (v, r) →
      r <:+ cs ∧ r.length < cs.length ∧ ∀ m, v = .obj m → [123, 125].Sublist cs) ∧
    (∀ cs acc v r, parseMembers f cs acc = some (v, r) →
      r <:+ cs ∧ r.length < cs.length ∧ 125 ∈ cs ∧ ∃ m, v = .obj m) ∧
    (∀ cs acc v r, parseElements f cs acc = some (v, r) →
      r <:+ cs ∧ r.length < cs.length ∧ ∃ items, v = .arr items) := by
  intro f
  induction f with
  | zero =>
    refine ⟨?_, ?_, ?_⟩
    · intro cs v r h; simp [parseValue] at h
    · intro cs acc v r h; simp [parseMembers] at h
    · intro cs acc v r h; simp [parseElements] at h
  | succ f ih =>
    obtain ⟨ihV, ihM, ihE⟩ := ih
    refine ⟨?_, ?_, ?_⟩
    · intro cs v r h
      unfold parseValue at h
      split at h
      · rename_i rest
        split at h
        · rename_i rest1 hws
          simp only [Option.some.injEq, Prod.mk.injEq] at h
          obtain ⟨rfl, rfl⟩ := h
          obtain ⟨h1, h2, h3⟩ := suffix_of_skipWs_eq hws
          refine ⟨h1.trans (List.suffix_cons _ _), by simp only [List.length_cons]; omega, ?_⟩
          intro _ _
          exact (List.singleton_sublist.mpr h3).cons₂ 123
        · obtain ⟨h1, h2, h3, -⟩ := ihM _ _ _ _ h
          have hs := skipWs_suffix rest
          refine ⟨(h1.trans hs).trans (List.suffix_cons _ _), ?_, ?_⟩
          · have := hs.length_le
            simp only [List.length_cons]; omega
          · intro _ _
            exact (List.singleton_sublist.mpr (hs.subset h3)).cons₂ 123
      · rename_i rest
        split at h
        · rename_i rest1 hws
          simp only [Option.some.injEq, Prod.mk.injEq] at h
          obtain ⟨rfl, rfl⟩ := h
          obtain ⟨h1, h2, h3⟩ := suffix_of_skipWs_eq hws
          exact ⟨h1.trans (List.suffix_cons _ _), by simp only [List.length_cons]; omega,
            fun m hm => by cases hm⟩
        · obtain ⟨h1, h2, items, rfl⟩ := ihE _ _ _ _ h
          have hs := skipWs_suffix rest
          refine ⟨(h1.trans hs).trans (List.suffix_cons _ _), ?_, fun m hm => by cases hm⟩
          have := hs.length_le
          simp only [List.length_cons]; omega
      · rename_i rest
        split at h
        · rename_i s r1 hs
          simp only [Option.some.injEq, Prod.mk.injEq] at h
          obtain ⟨rfl, rfl⟩ := h
          obtain ⟨h1, h2⟩ := parseStringBody_suffix _ _ le_rfl _ _ hs
          exact ⟨h1.trans (List.suffix_cons _ _), by simp only [List.length_cons]; omega,
            fun m hm => by cases hm⟩
        · simp at h
      · obtain ⟨h1, h2, h3⟩ := parseAtom_suffix _ _ _ h
        exact ⟨h1, h2, fun m hm => absurd hm (h3 m)⟩
    · intro cs acc v r h
      unfold parseMembers at h
      split at h
      · rename_i rest
        split at h
        · simp at h
        · rename_i k r1 hk
          obtain ⟨k1, k2⟩ := parseStringBody_suffix _ _ le_rfl _ _ hk
          split at h
          · rename_i r2 hcolon
            obtain ⟨c1, c2, -⟩ := suffix_of_skipWs_eq hcolon
            split at h
            · simp at h
            · rename_i v1 r3 hv
              obtain ⟨v1s, v2, -⟩ := ihV _ _ _ hv
              have w1 := skipWs_suffix r2
              have hr3 : r3 <:+ 34 :: rest :=
                (((v1s.trans w1).trans c1).trans k1).trans (List.suffix_cons _ _)
              have hr3len : r3.length < (34 :: rest).length := by
                have := w1.length_le
                simp only [List.length_cons]; omega
              split at h
              · rename_i r4 hcomma
                obtain ⟨d1, d2, -⟩ := suffix_of_skipWs_eq hcomma
                obtain ⟨e1, e2, e3, e4⟩ := ihM _ _ _ _ h
                have w2 := skipWs_suffix r4
                refine ⟨((e1.trans w2).trans d1).trans hr3, ?_, ?_, e4⟩
                · have := w2.length_le
                  omega
                · exact hr3.subset (d1.subset (w2.subset e3))
              · rename_i r4 hclose
                simp only [Option.some.injEq, Prod.mk.injEq] at h
                obtain ⟨rfl, rfl⟩ := h
                obtain ⟨d1, d2, d3⟩ := suffix_of_skipWs_eq hclose
                exact ⟨d1.trans hr3, by omega, hr3.subset d3, _, rfl⟩
              · simp at h
          · simp at h
      · simp at h
    · intro cs acc v r h
      unfold parseElements at h
      split at h
      · simp at h
      · rename_i v1 r1 hv
        obtain ⟨v1s, v2, -⟩ := ihV _ _ _ hv
        split at h
        · rename_i r2 hcomma
          obtain ⟨d1, d2, -⟩ := suffix_of_skipWs_eq hcomma
          obtain ⟨e1, e2, e3⟩ := ihE _ _ _ _ h
          have w2 := skipWs_suffix r2
          refine ⟨((e1.trans w2).trans d1).trans v1s, ?_, e3⟩
          have := w2.length_le
          omega
        · rename_i r2 hclose
          simp only [Option.some.injEq, Prod.mk.injEq] at h
          obtain ⟨rfl, rfl⟩ := h
          obtain ⟨d1, d2, -⟩ := suffix_of_skipWs_eq hclose
          exact ⟨d1.trans v1s, by omega, _, rfl⟩
        · simp at h

/-- A text that `JSON.parse` turns into an object has a `{` with a `}` somewhere behind it. -/
theorem parse_obj_brace_pair (text : JsString) (m : List (JsString × JsValue))
    (h : parse text = some (.obj m)) : [123, 125].Sublist text := by
  unfold parse parseFuel at h
  split at h
  · rename_i v rest hv
    split at h
    · simp only [Option.some.injEq] at h
      subst h
      exact ((parse_suffix_aux _).1 _ _ _ hv).2.2 m rfl |>.trans (skipWs_suffix text).sublist
    · simp at h
  · simp at h

theorem parse_fuel_aux : ∀ f g : Nat,
    (∀ cs, 2 * cs.length < f → 2 * cs.length < g → parseValue f cs = parseValue g cs) ∧
    (∀ cs acc, 2 * cs.length + 1 < f → 2 * cs.length + 1 < g →
      parseMembers f cs acc = parseMembers g cs acc) ∧
    (∀ cs acc, 2 * cs.length + 1 < f → 2 * cs.length + 1 < g →
      parseElements f cs acc = parseElements g cs acc) := by
  intro f
  induction f with
  | zero =>
    intro g
    exact ⟨fun cs h => by omega, fun cs acc h => by omega, fun cs acc h => by omega⟩
  | succ f ih =>
    intro g
    cases g with
    | zero => exact ⟨fun cs _ h => by omega, fun cs acc _ h => by omega, fun cs acc _ h => by omega⟩
    | succ g =>
      obtain ⟨ihV, ihM, ihE⟩ := ih g
      refine ⟨?_, ?_, ?_⟩
      · intro cs hf hg
        unfold parseValue
        split
        · rename_i rest
          have hs := (skipWs_suffix rest).length_le
          simp only [List.length_cons] at hf hg
          split
          · rfl
          · exact ihM _ _ (by omega) (by omega)
        · rename_i rest
          have hs := (skipWs_suffix rest).length_le
          simp only [List.length_cons] at hf hg
          split
          · rfl
          · exact ihE _ _ (by omega) (by omega)
        · rfl
        · rfl
      · intro cs acc hf hg
        unfold parseMembers
        split
        · rename_i rest
          simp only [List.length_cons] at hf hg
          split
          · rfl
          · rename_i k r1 hk
            obtain ⟨k1, k2⟩ := parseStringBody_suffix _ _ le_rfl _ _ hk
            split
            · rename_i r2 hcolon
              obtain ⟨c1, c2, -⟩ := suffix_of_skipWs_eq hcolon
              have w1 := (skipWs_suffix r2).length_le
              rw [ihV (skipWs r2) (by omega) (by omega)]
              split
              · rfl
              · rename_i v1 r3 hv
                obtain ⟨v1s, v2, -⟩ := (parse_suffix_aux g).1 _ _ _ hv
                split
                · rename_i r4 hcomma
                  obtain ⟨d1, d2, -⟩ := suffix_of_skipWs_eq hcomma
                  have w2 := (skipWs_suffix r4).length_le
                  exact ihM _ _ (by omega) (by omega)
                · rfl
                · rfl
            · rfl
        · rfl
      · intro cs acc hf hg
        unfold parseElements
        rw [ihV cs (by omega) (by omega)]
        split
        · rfl
        · rename_i v1 r1 hv
          obtain ⟨v1s, v2, -⟩ := (parse_suffix_aux g).1 _ _ _ hv
          split
          · rename_i r2 hcomma
            obtain ⟨d1, d2, -⟩ := suffix_of_skipWs_eq hcomma
            have w2 := (skipWs_suffix r2).length_le
            exact ihE _ _ (by omega) (by omega)
          · rfl
          · rfl

/-- The fuel of `parse` is enough: any larger amount gives the same result. -/
theorem parseFuel_stable (text : JsString) (f : Nat) (hf : 2 * text.length + 2 ≤ f) :
    parseFuel f text = parse text := by
  unfold parse parseFuel
  have hs := (skipWs_suffix text).length_le
  rw [(parse_fuel_aux f (2 * text.length + 2)).1 (skipWs text) (by omega) (by omega)]

end JSON

theorem trim_sublist (s : JsString) : (trim s).Sublist s :=
  (List.rdropWhile_prefix _ _).sublist.trans (List.dropWhile_sublist _)

theorem matchBraces_sublist (s m : JsString) (h : matchBraces s = some m) : m.Sublist s := by
  unfold matchBraces at h
  split at h
  · simp at h
  · rename_i c rest hd
    split at h
    · simp only [Option.some.injEq] at h
      subst h
      have h1 : (c :: rest.rdropWhile (fun d => d != 125)).Sublist (c :: rest) :=
        (List.rdropWhile_prefix _ _).sublist.cons₂ c
      exact h1.trans (hd ▸ List.dropWhile_sublist _)
    · simp at h

theorem cleanText_sublist (text : JsString) : (cleanText text).Sublist text := by
  have h1 : (replaceFence fence (replaceFence fenceJson (trim text))).Sublist text :=
    ((replaceFence_sublist fence (by decide) _ _ le_rfl).trans
      (replaceFence_sublist fenceJson (by decide) _ _ le_rfl)).trans (trim_sublist text)
  unfold cleanText
  dsimp only
  split
  · rename_i m hm
    exact (matchBraces_sublist _ _ hm).trans h1
  · exact h1

theorem callGeminiAPI_try_eq (text : JsString) :
    callGeminiAPI_try text = (JSON.parse (cleanText text)).filter hasRequiredFields := by
  unfold callGeminiAPI_try
  cases JSON.parse (cleanText text) with
  | none => rfl
  | some v =>
    cases v with
    | obj members =>
      simp only [getProp, hasRequiredFields, Option.filter]
      rcases Bool.eq_false_or_eq_true (truthy (lookupMember (utf16 "pokemon_name") members))
        with h1 | h1 <;>
      rcases Bool.eq_false_or_eq_true (truthy (lookupMember (utf16 "description") members))
        with h2 | h2 <;> simp [h1, h2]
    | _ => simp [getProp, hasRequiredFields, Option.filter, truthy]

theorem bitLengthAux_le : ∀ (f n b : Nat), n < 2 ^ b → bitLengthAux f n ≤ b := by
  intro f
  induction f with
  | zero => intro n b _; simp [bitLengthAux]
  | succ f ih =>
    intro n b h
    unfold bitLengthAux
    split
    · exact Nat.zero_le _
    · rename_i hn
      cases b with
      | zero => simp at h; exact absurd h hn
      | succ b =>
        have h2 : n / 2 < 2 ^ b := by
          rw [Nat.div_lt_iff_lt_mul (by decide)]
          rw [pow_succ] at h
          exact h
        have := ih (n / 2) b h2
        omega

theorem bitLengthAux_spec : ∀ (f n : Nat), n ≤ f →
    n < 2 ^ bitLengthAux f n ∧ (n ≠ 0 → 2 ^ (bitLengthAux f n - 1) ≤ n) := by
  intro f
  induction f with
  | zero =>
    intro n h
    have : n = 0 := by omega
    subst this
    simp [bitLengthAux]
  | succ f ih =>
    intro n h
    unfold bitLengthAux
    split
    · rename_i hn
      subst hn
      simp
    · rename_i hn
      obtain ⟨h1, h2⟩ := ih (n / 2) (by omega)
      constructor
      · rw [pow_succ]
        omega
      · intro _
        simp only [Nat.add_sub_cancel]
        by_cases h0 : n / 2 = 0
        · have : bitLengthAux f (n / 2) = 0 := by
            rw [h0]
            cases f <;> simp [bitLengthAux]
          rw [this]
          simp
          omega
        · have h3 := h2 h0
          have hpos : 0 < bitLengthAux f (n / 2) := by
            by_contra hc
            have hz : bitLengthAux f (n / 2) = 0 := by omega
            rw [hz] at h1
            simp at h1
            exact h0 h1
          have : 2 ^ bitLengthAux f (n / 2) = 2 ^ (bitLengthAux f (n / 2) - 1) * 2 := by
            rw [← pow_succ]
            congr 1
            omega
          omega

/-- `bitLength n` is the number of binary digits: `2 ^ (bitLength n - 1) ≤ n < 2 ^ bitLength n`
for `n` other than 0. -/
theorem bitLength_spec (n : Nat) :
    n < 2 ^ bitLength n ∧ (n ≠ 0 → 2 ^ (bitLength n - 1) ≤ n) :=
  bitLengthAux_spec n n le_rfl

/-- `roundNat53 n` is a multiple of the quantum `2 ^ (bitLength n - 53)` at a distance of
half a quantum at most from `n`. -/
theorem roundNat53_nearest (n : Nat) :
    2 ^ (bitLength n - 53) ∣ roundNat53 n ∧
    2 * roundNat53 n ≤ 2 * n + 2 ^ (bitLength n - 53) ∧
    2 * n ≤ 2 * roundNat53 n + 2 ^ (bitLength n - 53) := by
  unfold roundNat53
  generalize bitLength n - 53 = s
  dsimp only
  have hdm := Nat.div_add_mod n (2 ^ s)
  have hlt := Nat.mod_lt n (Nat.two_pow_pos s)
  generalize 2 ^ s = p at hdm hlt ⊢
  generalize n / p = q at hdm ⊢
  generalize n % p = t at hdm hlt ⊢
  have hq : q * p = p * q := Nat.mul_comm _ _
  have hq1 : (q + 1) * p = p * q + p := by rw [Nat.add_mul, Nat.one_mul, hq]
  split_ifs <;> refine ⟨?_, ?_, ?_⟩ <;>
    first
      | exact Dvd.intro_left _ rfl
      | (rw [hq1]; omega)
      | (rw [hq]; omega)

/-- Below `2 ^ 56` the rounding to 53 bits adds 4 at most. -/
theorem roundNat53_le (n : Nat) (h : n < 2 ^ 56) : roundNat53 n ≤ n + 4 := by
  have hs : bitLength n - 53 ≤ 3 := by
    have := bitLengthAux_le n n 56 h
    unfold bitLength
    omega
  unfold roundNat53
  generalize bitLength n - 53 = s at hs
  interval_cases s <;> simp only [] <;> norm_num <;> split_ifs <;> omega

/-- The double product of a draw below 1 and the length 5 stays below 5: the draw is
`1 - 2 ^ -53` at most, and the rounding error of the product is less than the gap. -/
theorem fallbackIndex_lt (r : Draw) (h : r.IsRandom) : fallbackIndex r < 5 := by
  obtain ⟨hm, -, hk⟩ := h
  have hlen : fallbackPokemon.length = 5 := rfl
  unfold fallbackIndex
  rw [hlen]
  have h1 : r.m * 5 < 2 ^ 56 := by omega
  have h2 := roundNat53_le (r.m * 5) h1
  apply Nat.div_lt_of_lt_mul
  generalize 2 ^ r.k = p at hk
  omega

theorem fallback_mem (r : Draw) (h : r.IsRandom) :
    indexArray fallbackPokemon (fallbackIndex r) ∈ fallbackPokemon := by
  have hlen : fallbackPokemon.length = 5 := rfl
  have hlt := fallbackIndex_lt r h
  have hnat : ((fallbackIndex r : ℤ)).toNat < fallbackPokemon.length := by
    rw [hlen]; omega
  unfold indexArray
  rw [if_neg (by omega), List.getD_eq_getElem _ _ hnat]
  exact List.getElem_mem _

theorem fallback_hasRequiredFields : ∀ v ∈ fallbackPokemon, hasRequiredFields v = true := by
  decide

theorem callGeminiAPI_normalize_of_try_none (text : JsString) (r : Draw)
    (h : callGeminiAPI_try text = none) :
    callGeminiAPI_normalize text r = indexArray fallbackPokemon (fallbackIndex r) := by
  simp [callGeminiAPI_normalize, h]

theorem not_containsJsonObject (text : JsString) (h : containsJsonObject text = false)
    (sub : JsString) (hsub : sub <:+: text) (m : List (JsString × JsValue)) :
    JSON.parse sub ≠ some (.obj m) := by
  intro hp
  obtain ⟨s, t, rfl⟩ := hsub
  have hc : containsJsonObject (s ++ sub ++ t) = true := by
    unfold containsJsonObject
    rw [List.any_eq_true]
    refine ⟨s.length, List.mem_range.mpr (by simp only [List.length_append]; omega), ?_⟩
    rw [List.any_eq_true]
    refine ⟨sub.length, List.mem_range.mpr (by simp only [List.length_append]; omega), ?_⟩
    have hd : ((s ++ sub ++ t).drop s.length).take sub.length = sub := by
      rw [List.append_assoc, List.drop_left, List.take_left]
    rw [hd, hp]
  rw [h] at hc
  cases hc

/-- The index in double arithmetic at three draws: 0, the double nearest to 0.6 (where the
rounded product is exactly 3 although the exact one is below 3), and the largest double
below 1. -/
theorem fallbackIndex_scenarios :
    fallbackIndex ⟨0, 0⟩ = 0 ∧
    fallbackIndex ⟨5404319552844595, 53⟩ = 3 ∧ 5404319552844595 * 5 / 2 ^ 53 = 2 ∧
    fallbackIndex ⟨2 ^ 53 - 1, 53⟩ = 4 := by
  decide

/-- C2 (amended): when the cleaned text (trimmed, fence markers deleted, cut to the span from
the first `{` to the last `}` if there is one) does not parse to a JSON object, and in
particular when the raw text has no `{` with a `}` somewhere behind it, then for every draw
`r` in `[0, 1)` the normalisation returns one of the five fallback entries.  The function is
total: a thrown exception of the `try` block is the `none` that selects the fallback. -/
theorem callGeminiAPI_normalize_fallback (text : JsString) (r : Draw) (hr : r.IsRandom)
    (h : (∀ m, JSON.parse (cleanText text) ≠ some (.obj m)) ∨ ¬ [123, 125].Sublist text) :
    callGeminiAPI_normalize text r ∈ fallbackPokemon ∧ fallbackPokemon.length = 5 := by
  have hobj : ∀ m, JSON.parse (cleanText text) ≠ some (.obj m) := by
    rcases h with h | h
    · exact h
    · intro m hm
      exact h ((JSON.parse_obj_brace_pair _ m hm).trans (cleanText_sublist text))
  have htry : callGeminiAPI_try text = none := by
    rw [callGeminiAPI_try_eq]
    cases hp : JSON.parse (cleanText text) with
    | none => rfl
    | some v =>
      cases v with
      | obj m => exact absurd hp (hobj m)
      | _ => rfl
  rw [callGeminiAPI_normalize_of_try_none text r htry]
  exact ⟨fallback_mem r hr, rfl⟩

/-- Witness for C2: the scenario `Sorry, I cannot help.` of the specification. -/
theorem callGeminiAPI_normalize_fallback_witness :
    callGeminiAPI_normalize (utf16 "Sorry, I cannot help.") ⟨1, 1⟩ ∈ fallbackPokemon
      ∧ fallbackPokemon.length = 5 :=
  callGeminiAPI_normalize_fallback (utf16 "Sorry, I cannot help.") ⟨1, 1⟩ (by decide)
    (Or.inr (by decide))

set_option maxRecDepth 1000000 in
/-- C2 (counterexample): a raw text no stretch of which is a parsable JSON object, because
a fence marker sits between two members, is still normalised to an object that is not a
fallback entry: the marker is deleted before parsing. -/
theorem callGeminiAPI_normalize_fence_inside :
    (∀ sub, sub <:+: utf16 "\x7b\"pokemon_name\":\"Mew\",```\"description\":\"rare\"\x7d" →
      ∀ m, JSON.parse sub ≠ some (.obj m)) ∧
    callGeminiAPI_normalize (utf16 "\x7b\"pokemon_name\":\"Mew\",```\"description\":\"rare\"\x7d") ⟨0, 0⟩
      = entry "Mew" "rare" ∧
    callGeminiAPI_normalize (utf16 "\x7b\"pokemon_name\":\"Mew\",```\"description\":\"rare\"\x7d") ⟨0, 0⟩
      ∉ fallbackPokemon := by
  have hres : callGeminiAPI_normalize
      (utf16 "\x7b\"pokemon_name\":\"Mew\",```\"description\":\"rare\"\x7d") ⟨0, 0⟩
      = entry "Mew" "rare" := callGeminiAPI_normalize_of_try _ _ _ (by rfl)
  refine ⟨fun sub hsub m => not_containsJsonObject _ (by decide) sub hsub m, hres, ?_⟩
  rw [hres]
  intro hmem
  have hn := List.mem_map_of_mem nameOf hmem
  revert hn
  decide

/-- C3 (amended): for every provider text and every draw `r` in `[0, 1)` the returned value
is an object whose `pokemon_name` and `description` are both present and truthy, so a field
that is a string is non-empty; a parsed value in which either field is missing or falsy
(`null`, `false`, zero, the empty string) is replaced by a fallback entry. -/
theorem callGeminiAPI_normalize_hasRequiredFields (text : JsString) (r : Draw)
    (hr : r.IsRandom) :
    hasRequiredFields (callGeminiAPI_normalize text r) = true ∧
    (∀ s, getProp (callGeminiAPI_normalize text r) (utf16 "pokemon_name") = some (.str s) →
      s ≠ []) ∧
    (∀ s, getProp (callGeminiAPI_normalize text r) (utf16 "description") = some (.str s) →
      s ≠ []) ∧
    (∀ v, JSON.parse (cleanText text) = some v → hasRequiredFields v = false →
      callGeminiAPI_normalize text r ∈ fallbackPokemon) := by
  have hreq : hasRequiredFields (callGeminiAPI_normalize text r) = true := by
    cases htry : callGeminiAPI_try text with
    | none =>
      rw [callGeminiAPI_normalize_of_try_none text r htry]
      exact fallback_hasRequiredFields _ (fallback_mem r hr)
    | some v =>
      rw [callGeminiAPI_normalize_of_try text r v htry]
      rw [callGeminiAPI_try_eq, Option.filter_eq_some] at htry
      exact htry.2
  refine ⟨hreq, ?_, ?_, ?_⟩
  · intro s hs hnil
    subst hnil
    cases hv : callGeminiAPI_normalize text r with
    | obj m =>
      rw [hv] at hs hreq
      simp only [getProp, Option.some.injEq] at hs
      simp [hasRequiredFields, hs, truthy] at hreq
    | _ => rw [hv] at hreq; simp [hasRequiredFields] at hreq
  · intro s hs hnil
    subst hnil
    cases hv : callGeminiAPI_normalize text r with
    | obj m =>
      rw [hv] at hs hreq
      simp only [getProp, Option.some.injEq] at hs
      simp [hasRequiredFields, hs, truthy] at hreq
    | _ => rw [hv] at hreq; simp [hasRequiredFields] at hreq
  · intro v hv hf
    have htry : callGeminiAPI_try text = none := by
      rw [callGeminiAPI_try_eq, hv]
      simp [Option.filter, hf]
    rw [callGeminiAPI_normalize_of_try_none text r htry]
    exact fallback_mem r hr

/-- Witness for C3: an object without `description`, draw `3/4`. -/
theorem callGeminiAPI_normalize_hasRequiredFields_witness :
    hasRequiredFields
      (callGeminiAPI_normalize (utf16 "\x7b\"pokemon_name\":\"Mew\"\x7d") ⟨3, 2⟩) = true ∧
    (∀ s, getProp (callGeminiAPI_normalize (utf16 "\x7b\"pokemon_name\":\"Mew\"\x7d") ⟨3, 2⟩)
      (utf16 "pokemon_name") = some (.str s) → s ≠ []) ∧
    (∀ s, getProp (callGeminiAPI_normalize (utf16 "\x7b\"pokemon_name\":\"Mew\"\x7d") ⟨3, 2⟩)
      (utf16 "description") = some (.str s) → s ≠ []) ∧
    (∀ v, JSON.parse (cleanText (utf16 "\x7b\"pokemon_name\":\"Mew\"\x7d")) = some v →
      hasRequiredFields v = false →
      callGeminiAPI_normalize (utf16 "\x7b\"pokemon_name\":\"Mew\"\x7d") ⟨3, 2⟩
        ∈ fallbackPokemon) :=
  callGeminiAPI_normalize_hasRequiredFields (utf16 "\x7b\"pokemon_name\":\"Mew\"\x7d") ⟨3, 2⟩
    (by decide)

/-- C3 (counterexample): an object whose fields are truthy but not strings passes the check
of line 420 and is returned as it is; it is not an `AnalysisResult` of non-empty strings. -/
theorem callGeminiAPI_normalize_non_string_fields :
    callGeminiAPI_normalize (utf16 "\x7b\"pokemon_name\":1,\"description\":[]\x7d") ⟨0, 0⟩
      = .obj [(utf16 "pokemon_name", .num ⟨false, 1, 0⟩), (utf16 "description", .arr [])] ∧
    isAnalysisResult
      (callGeminiAPI_normalize (utf16 "\x7b\"pokemon_name\":1,\"description\":[]\x7d") ⟨0, 0⟩)
      = false := by
  have hres : callGeminiAPI_normalize (utf16 "\x7b\"pokemon_name\":1,\"description\":[]\x7d") ⟨0, 0⟩
      = .obj [(utf16 "pokemon_name", .num ⟨false, 1, 0⟩), (utf16 "description", .arr [])] :=
    callGeminiAPI_normalize_of_try _ _ _ (by rfl)
  refine ⟨hres, ?_⟩
  rw [hres]
  rfl

/-! ## Lemmas on the slug -/

theorem replaceNonAlnum_chars (s : JsString) :
    ∀ c ∈ replaceNonAlnum s, isAlnum c = true ∨ c = 45 := by
  intro c hc
  unfold replaceNonAlnum at hc
  obtain ⟨d, -, rfl⟩ := List.mem_map.mp hc
  by_cases hd : isAlnum d = true
  · left; simp [hd]
  · right; simp [hd]

theorem collapseDashes_sublist (s : JsString) : (collapseDashes s).Sublist s := by
  induction s with
  | nil => exact List.Sublist.refl _
  | cons c cs ih =>
    unfold collapseDashes
    split
    · exact ih.cons c
    · exact ih.cons₂ c

theorem collapseDashes_head (s : JsString) (h : s.head? ≠ some 45) :
    (collapseDashes s).head? ≠ some 45 := by
  cases s with
  | nil => simp [collapseDashes]
  | cons c cs =>
    have hc : c ≠ 45 := by simpa using h
    unfold collapseDashes
    rw [if_neg (fun h => hc h.1)]
    simpa using hc

theorem collapseDashes_noDouble (s : JsString) : NoDoubleDash (collapseDashes s) := by
  unfold NoDoubleDash
  induction s with
  | nil => exact List.chain'_nil
  | cons c cs ih =>
    unfold collapseDashes
    split
    · exact ih
    · rename_i hc
      rw [List.chain'_cons']
      refine ⟨?_, ih⟩
      intro y hy ⟨h1, h2⟩
      subst h1 h2
      apply hc
      refine ⟨rfl, ?_⟩
      by_contra hne
      exact collapseDashes_head cs hne (by simpa using hy)

theorem noDouble_not_infix (s : JsString) (h : NoDoubleDash s) : ¬ [45, 45] <:+: s := by
  unfold NoDoubleDash at h
  intro hin
  have := List.Chain'.infix h hin
  simp at this

theorem stripLeadingDash_props (s : JsString) (h : NoDoubleDash s) :
    (stripLeadingDash s).Sublist s ∧ NoDoubleDash (stripLeadingDash s) ∧
      (stripLeadingDash s).head? ≠ some 45 := by
  unfold NoDoubleDash at *
  cases s with
  | nil => exact ⟨List.Sublist.refl _, h, by simp [stripLeadingDash]⟩
  | cons c cs =>
    by_cases hc : c = 45
    · subst hc
      have : stripLeadingDash (45 :: cs) = cs := rfl
      rw [this]
      refine ⟨List.sublist_cons_self _ _, h.tail, ?_⟩
      intro hh
      cases cs with
      | nil => simp at hh
      | cons d cs =>
        simp only [List.head?_cons, Option.some.injEq] at hh
        subst hh
        rw [List.chain'_cons] at h
        exact h.1 ⟨rfl, rfl⟩
    · have : stripLeadingDash (c :: cs) = c :: cs := by
        unfold stripLeadingDash
        split
        · rename_i heq
          simp only [List.cons.injEq] at heq
          exact absurd heq.1 hc
        · rfl
      rw [this]
      exact ⟨List.Sublist.refl _, h, by simpa using hc⟩

theorem stripTrailingDash_props (t : JsString) (hchain : NoDoubleDash t)
    (hhead : t.head? ≠ some 45) :
    (stripTrailingDash t).Sublist t ∧ NoDoubleDash (stripTrailingDash t) ∧
      (stripTrailingDash t).head? ≠ some 45 ∧ (stripTrailingDash t).getLast? ≠ some 45 := by
  unfold NoDoubleDash at *
  unfold stripTrailingDash
  split
  · rename_i hlast
    rcases List.eq_nil_or_concat t with rfl | ⟨u, x, rfl⟩
    · simp at hlast
    · simp only [List.concat_eq_append] at hlast hchain hhead ⊢
      have hx : (u ++ [x]).getLast? = some x := by simp
      rw [hx, Option.some.injEq] at hlast
      subst hlast
      rw [List.dropLast_concat]
      refine ⟨List.sublist_append_left u [45], hchain.left_of_append, ?_, ?_⟩
      · cases u with
        | nil => simp
        | cons d u => simpa using hhead
      · intro hu
        rcases List.eq_nil_or_concat u with rfl | ⟨w, y, rfl⟩
        · simp at hu
        · simp only [List.concat_eq_append] at hu hchain
          have hy : (w ++ [y]).getLast? = some y := by simp
          rw [hy, Option.some.injEq] at hu
          subst hu
          have hin : [45, 45] <:+: w ++ [45] ++ [45] := ⟨w, [], by simp⟩
          have := List.Chain'.infix hchain hin
          simp at this
  · rename_i hlast
    exact ⟨List.Sublist.refl _, hchain, hhead, hlast⟩

theorem stripEdgeDashes_props (s : JsString) (h : NoDoubleDash s) :
    (stripEdgeDashes s).Sublist s ∧ NoDoubleDash (stripEdgeDashes s) ∧
      (stripEdgeDashes s).head? ≠ some 45 ∧ (stripEdgeDashes s).getLast? ≠ some 45 := by
  obtain ⟨a1, a2, a3⟩ := stripLeadingDash_props s h
  obtain ⟨b1, b2, b3, b4⟩ := stripTrailingDash_props _ a2 a3
  exact ⟨b1.trans a1, b2, b3, b4⟩

/-- The shape of every slug. -/
theorem cleanName_shape (x : JsString) :
    (∀ c ∈ cleanName x, isAlnum c = true ∨ c = 45) ∧ NoDoubleDash (cleanName x) ∧
      (cleanName x).head? ≠ some 45 ∧ (cleanName x).getLast? ≠ some 45 := by
  obtain ⟨h1, h2, h3, h4⟩ := stripEdgeDashes_props _
    (collapseDashes_noDouble (replaceNonAlnum (toLowerCase x)))
  refine ⟨?_, h2, h3, h4⟩
  intro c hc
  exact replaceNonAlnum_chars _ c ((collapseDashes_sublist _).subset (h1.subset hc))

theorem toLowerCase_id (s : JsString) (h : ∀ c ∈ s, isAlnum c = true ∨ c = 45) :
    toLowerCase s = s := by
  unfold toLowerCase
  induction s with
  | nil => rfl
  | cons c cs ih =>
    have hc : lowerUnit c = [c] := by
      have := h c (List.mem_cons_self _ _)
      unfold lowerUnit
      simp only [isAlnum, decide_eq_true_eq] at this
      rw [if_neg (by omega), if_neg (by omega), if_neg (by omega)]
    rw [List.flatMap_cons, hc, ih (fun d hd => h d (List.mem_cons_of_mem _ hd))]
    rfl

theorem replaceNonAlnum_id (s : JsString) (h : ∀ c ∈ s, isAlnum c = true ∨ c = 45) :
    replaceNonAlnum s = s := by
  unfold replaceNonAlnum
  conv_rhs => rw [← List.map_id s]
  apply List.map_congr_left
  intro c hc
  rcases h c hc with h1 | h1
  · simp [h1]
  · subst h1; simp

theorem collapseDashes_id (s : JsString) (h : NoDoubleDash s) : collapseDashes s = s := by
  unfold NoDoubleDash at h
  induction s with
  | nil => rfl
  | cons c cs ih =>
    unfold collapseDashes
    have hno : ¬ (c = 45 ∧ cs.head? = some 45) := by
      rintro ⟨rfl, hh⟩
      cases cs with
      | nil => simp at hh
      | cons d cs =>
        simp only [List.head?_cons, Option.some.injEq] at hh
        subst hh
        rw [List.chain'_cons] at h
        exact h.1 ⟨rfl, rfl⟩
    rw [if_neg hno, ih h.tail]

theorem stripEdgeDashes_id (s : JsString) (hh : s.head? ≠ some 45)
    (hl : s.getLast? ≠ some 45) : stripEdgeDashes s = s := by
  have h1 : stripLeadingDash s = s := by
    unfold stripLeadingDash
    split
    · simp at hh
    · rfl
  unfold stripEdgeDashes stripTrailingDash
  rw [h1, if_neg hl]


/-- C4: the slug computed in `getPokemonImage` is idempotent. -/
theorem cleanName_idempotent (x : JsString) : cleanName (cleanName x) = cleanName x := by
  obtain ⟨h1, h2, h3, h4⟩ := cleanName_shape x
  generalize cleanName x = s at h1 h2 h3 h4
  unfold cleanName
  rw [toLowerCase_id s h1, replaceNonAlnum_id s h1, collapseDashes_id s h2,
    stripEdgeDashes_id s h3 h4]

/-- C5: every slug consists of the characters `a`–`z`, `0`–`9` and `-` only, has no two
consecutive `-`, and neither starts nor ends with `-`. -/
theorem cleanName_wellFormed (x : JsString) :
    (∀ c ∈ cleanName x, (97 ≤ c ∧ c ≤ 122) ∨ (48 ≤ c ∧ c ≤ 57) ∨ c = 45) ∧
      ¬ [45, 45] <:+: cleanName x ∧
      (cleanName x).head? ≠ some 45 ∧ (cleanName x).getLast? ≠ some 45 := by
  obtain ⟨h1, h2, h3, h4⟩ := cleanName_shape x
  refine ⟨?_, noDouble_not_infix _ h2, h3, h4⟩
  intro c hc
  rcases h1 c hc with h | h
  · simp only [isAlnum, decide_eq_true_eq] at h
    rcases h with h | h
    · exact Or.inl h
    · exact Or.inr (Or.inl h)
  · exact Or.inr (Or.inr h)

/-! ## Artwork lookup -/

theorem truthy_placeholder : truthy (.str placeholder) = true := by decide

theorem artworkOf_truthy (data url : JsValue) (h : artworkOf data = some url) :
    truthy url = true := by
  unfold artworkOf at h
  split at h
  · simp at h
  · split at h
    · simp at h
    · split at h
      · simp at h
      · split at h
        · simp at h
        · split at h
          · rename_i hhi
            simp only [Option.some.injEq] at h
            exact h ▸ hhi
          · split at h
            · simp at h
            · split at h
              · rename_i hlo
                simp only [Option.some.injEq] at h
                exact h ▸ hlo
              · simp only [Option.some.injEq] at h
                exact h ▸ truthy_placeholder

/-- C6: for a creature name (a string) and any behaviour of the lookup service,
`getPokemonImage` resolves to a value and never rejects; the value is truthy, so a URL that
is returned is never empty; and when the request is rejected (network error) or answered
with a status outside 200–299, the value is the fixed placeholder URL. -/
theorem getPokemonImage_total (fetch : JsString → FetchResult) (name : JsString) :
    (∃ url, getPokemonImage fetch (.str name) = some url ∧ truthy url = true) ∧
    (∀ message, fetch (lookupUrl name) = .rejected message →
      getPokemonImage fetch (.str name) = some (.str placeholder)) ∧
    (∀ status body, fetch (lookupUrl name) = .response status body → isOk status = false →
      getPokemonImage fetch (.str name) = some (.str placeholder)) ∧
    placeholder = utf16 "https://via.placeholder.com/200x200?text=Pokemon" := by
  refine ⟨?_, ?_, ?_, rfl⟩
  · unfold getPokemonImage
    cases htry : getPokemonImage_try fetch (.str name) with
    | none => exact ⟨_, rfl, truthy_placeholder⟩
    | some url =>
      refine ⟨url, rfl, ?_⟩
      unfold getPokemonImage_try at htry
      simp only at htry
      split at htry
      · simp at htry
      · split at htry
        · simp at htry
        · split at htry
          · simp at htry
          · exact artworkOf_truthy _ _ htry
  · intro message h
    simp [getPokemonImage, getPokemonImage_try, h, toStringThrows]
  · intro status body h hok
    simp [getPokemonImage, getPokemonImage_try, h, hok, toStringThrows]

/-- C7 (amended): for a record answered with a status in 200–299 in which
`sprites.other['official-artwork']` can be read, `getPokemonImage` returns the official
artwork `front_default` when it is truthy, otherwise `sprites.front_default` when that is
truthy, and the placeholder otherwise. -/
theorem getPokemonImage_prefers_artwork (fetch : JsString → FetchResult) (name : JsString)
    (status : Nat) (body : JsString) (data sprites other artwork hi lo : JsValue)
    (hfetch : fetch (lookupUrl name) = .response status body) (hok : isOk status = true)
    (hdata : JSON.parse body = some data)
    (hsprites : getProp data (utf16 "sprites") = some sprites)
    (hother : getProp sprites (utf16 "other") = some other)
    (hartwork : getProp other (utf16 "official-artwork") = some artwork)
    (hhi : getProp artwork (utf16 "front_default") = some hi)
    (hlo : getProp sprites (utf16 "front_default") = some lo) :
    getPokemonImage fetch (.str name)
      = some (if truthy hi then hi else if truthy lo then lo else .str placeholder) := by
  have h : getPokemonImage_try fetch (.str name)
      = some (if truthy hi then hi else if truthy lo then lo else .str placeholder) := by
    simp only [getPokemonImage_try, hfetch, hok, hdata, artworkOf, hsprites, hother, hartwork,
      hhi, hlo]
    by_cases h1 : truthy hi = true
    · simp [h1]
    · by_cases h2 : truthy lo = true
      · simp [h1, h2]
      · simp [h1, h2]
  simp [getPokemonImage, h]

/-- Witness for C7: a record whose official artwork is `null` and whose sprite is set. -/
theorem getPokemonImage_prefers_artwork_witness :
    getPokemonImage
      (fun _ => .response 200 (utf16 "\x7b\"sprites\":\x7b\"front_default\":\"s.png\",\"other\":\x7b\"official-artwork\":\x7b\"front_default\":null\x7d\x7d\x7d\x7d"))
      (.str (utf16 "Pikachu"))
      = some (if truthy .null then .null
          else if truthy (.str (utf16 "s.png")) then .str (utf16 "s.png") else .str placeholder) :=
  getPokemonImage_prefers_artwork _ (utf16 "Pikachu") 200 _ _ _ _ _ .null (.str (utf16 "s.png"))
    rfl (by decide) (by rfl) (by rfl) (by rfl) (by rfl) (by rfl) (by rfl)

/-- C7 (counterexample): a 2xx record that has the sprite `front_default` but no `other`
member.  Reading `sprites.other['official-artwork']` throws, and the placeholder is returned
although the sprite is present. -/
theorem getPokemonImage_sprite_ignored :
    (JSON.parse (utf16 "\x7b\"sprites\":\x7b\"front_default\":\"s.png\"\x7d\x7d")).bind
        (fun data => (getProp data (utf16 "sprites")).bind
          (fun sprites => getProp sprites (utf16 "front_default")))
      = some (.str (utf16 "s.png")) ∧
    getPokemonImage
      (fun _ => .response 200 (utf16 "\x7b\"sprites\":\x7b\"front_default\":\"s.png\"\x7d\x7d"))
      (.str (utf16 "Pikachu"))
      = some (.str placeholder) := by
  exact ⟨by rfl, by rfl⟩

/-! ## Upload and credential handling -/

/-- C8: `processFile` accepts a file, that is stores it as `currentImageFile` and invokes
`displayUserImage` and `analyzeFace`, exactly when its type is one of `image/jpeg`,
`image/jpg`, `image/png` and its size is at most `10 * 1024 * 1024` bytes.  Every other file
is rejected: an error toast with a message is shown, nothing is invoked, no request is made,
and `apiKey`, `currentImageFile` and `isAnalyzing` are unchanged. -/
theorem processFile_accepts_iff (app : App) (file : File) :
    (((processFile app file).1 = { app with currentImageFile := some file } ∧
        (processFile app file).2 = [.displayUserImage file, .analyzeFace]) ↔
      (file.type ∈ [utf16 "image/jpeg", utf16 "image/jpg", utf16 "image/png"] ∧
        file.size ≤ 10 * 1024 * 1024)) ∧
    (¬ (file.type ∈ [utf16 "image/jpeg", utf16 "image/jpg", utf16 "image/png"] ∧
        file.size ≤ 10 * 1024 * 1024) →
      (processFile app file).2 = [] ∧
      (processFile app file).1.currentImageFile = app.currentImageFile ∧
      (processFile app file).1.apiKey = app.apiKey ∧
      (processFile app file).1.isAnalyzing = app.isAnalyzing ∧
      (processFile app file).1.storage = app.storage ∧
      (processFile app file).1.fetched = app.fetched ∧
      (processFile app file).1.elements.errorToastShown = true ∧
      ((processFile app file).1.elements.errorMessage = "Please upload a JPG or PNG image file" ∨
        (processFile app file).1.elements.errorMessage = "Image size should be less than 10MB")) := by
  have hmem : allowedTypes.contains file.type = true ↔
      file.type ∈ [utf16 "image/jpeg", utf16 "image/jpg", utf16 "image/png"] :=
    List.elem_iff
  cases ht : allowedTypes.contains file.type with
  | true =>
    by_cases hs : file.size > maxSize
    · have hs1 : ¬ file.size ≤ 10 * 1024 * 1024 := by unfold maxSize at hs; omega
      have hp : processFile app file
          = (showToast app "error" "Image size should be less than 10MB", []) := by
        simp only [processFile, ht, Bool.not_true, Bool.false_eq_true, if_false, hs, if_true]
      rw [hp]
      refine ⟨⟨fun h => by simp at h, fun h => absurd h.2 hs1⟩, fun _ => ?_⟩
      simp [showToast]
    · have hs1 : file.size ≤ 10 * 1024 * 1024 := by unfold maxSize at hs; omega
      have hp : processFile app file
          = ({ app with currentImageFile := some file }, [.displayUserImage file, .analyzeFace]) := by
        simp only [processFile, ht, Bool.not_true, Bool.false_eq_true, if_false, hs]
      rw [hp]
      exact ⟨⟨fun _ => ⟨hmem.mp ht, hs1⟩, fun _ => ⟨rfl, rfl⟩⟩, fun h => absurd ⟨hmem.mp ht, hs1⟩ h⟩
  | false =>
    have hp : processFile app file
        = (showToast app "error" "Please upload a JPG or PNG image file", []) := by
      simp only [processFile, ht, Bool.not_false, if_true]
    rw [hp]
    have hnot : ¬ file.type ∈ [utf16 "image/jpeg", utf16 "image/jpg", utf16 "image/png"] := by
      intro h
      rw [hmem.mpr h] at ht
      cases ht
    refine ⟨⟨fun h => by simp at h, fun h => absurd h.1 hnot⟩, fun _ => ?_⟩
    simp [showToast]

/-- The two upload scenarios of the specification: a GIF of any size and a PNG of 11 MiB are
rejected with the type message and the size message. -/
theorem processFile_scenarios (app : App) (size : Nat) :
    processFile app ⟨utf16 "image/gif", size⟩
      = (showToast app "error" "Please upload a JPG or PNG image file", []) ∧
    processFile app ⟨utf16 "image/png", 11 * 1024 * 1024⟩
      = (showToast app "error" "Image size should be less than 10MB", []) := by
  constructor
  · have h : allowedTypes.contains (utf16 "image/gif") = false := by decide
    simp only [processFile, h, Bool.not_false, if_true]
  · have h : allowedTypes.contains (utf16 "image/png") = true := by decide
    have h2 : 11 * 1024 * 1024 > maxSize := by decide
    simp only [processFile, h, Bool.not_true, Bool.false_eq_true, if_false, h2, if_true]

/-- C10: with an input that is empty after trimming, `saveApiKey` shows an error toast, sends
no probe and leaves the stored and the in-memory key as they were.  With any other input the
trimmed key is stored and kept in memory when the probe is sent; if the probe is rejected or
answered with a status outside 200–299, the stored key is removed, the in-memory key is
`null` and the invalid-key error toast is shown; if it is answered with a status in 200–299,
both hold the trimmed key. -/
theorem saveApiKey_spec (app : App) (probe : FetchResult) :
    (trim app.elements.apiKeyInputValue = [] →
      (saveApiKey app probe).storage = app.storage ∧
      (saveApiKey app probe).apiKey = app.apiKey ∧
      (saveApiKey app probe).fetched = app.fetched ∧
      (saveApiKey_begin app).2 = none ∧
      (saveApiKey app probe).elements.errorToastShown = true ∧
      (saveApiKey app probe).elements.errorMessage = "Please enter your Gemini API key") ∧
    (trim app.elements.apiKeyInputValue ≠ [] →
      ((saveApiKey_begin app).1.storage = some (trim app.elements.apiKeyInputValue) ∧
        (saveApiKey_begin app).1.apiKey = some (trim app.elements.apiKeyInputValue) ∧
        (saveApiKey_begin app).1.fetched
          = app.fetched ++ [probeUrl (trim app.elements.apiKeyInputValue)]) ∧
      ((∀ status body, probe = .response status body → 200 ≤ status → status ≤ 299 →
          (saveApiKey app probe).storage = some (trim app.elements.apiKeyInputValue) ∧
          (saveApiKey app probe).apiKey = some (trim app.elements.apiKeyInputValue)) ∧
        (∀ status body, probe = .response status body → ¬ (200 ≤ status ∧ status ≤ 299) →
          (saveApiKey app probe).storage = none ∧ (saveApiKey app probe).apiKey = none ∧
          (saveApiKey app probe).elements.errorToastShown = true ∧
          (saveApiKey app probe).elements.errorMessage
            = "Invalid API key. Please check and try again.") ∧
        (∀ message, probe = .rejected message →
          (saveApiKey app probe).storage = none ∧ (saveApiKey app probe).apiKey = none ∧
          (saveApiKey app probe).elements.errorToastShown = true ∧
          (saveApiKey app probe).elements.errorMessage
            = "Invalid API key. Please check and try again."))) := by
  constructor
  · intro h
    simp [saveApiKey, saveApiKey_begin, h, showToast]
  · intro h
    have hb : saveApiKey_begin app =
        ({ app with
            storage := some (trim app.elements.apiKeyInputValue)
            apiKey := some (trim app.elements.apiKeyInputValue)
            elements := { app.elements with
              saveApiKeyHtml := "<i class=\"fas fa-spinner fa-spin\"></i> Validating..."
              saveApiKeyDisabled := true }
            fetched := app.fetched ++ [probeUrl (trim app.elements.apiKeyInputValue)] },
          some (trim app.elements.apiKeyInputValue)) := by
      unfold saveApiKey_begin
      simp [h]
    refine ⟨by simp [hb], ?_, ?_, ?_⟩
    · intro status body hp h1 h2
      have hv : validateApiKey_throws probe = false := by
        simp [validateApiKey_throws, hp, isOk, h1, h2]
      simp [saveApiKey, hb, saveApiKey_resume, hv, showToast, hideApiModal]
    · intro status body hp hn
      have hv : validateApiKey_throws probe = true := by
        simp only [validateApiKey_throws, hp, isOk, decide_eq_false hn, Bool.not_false]
      simp [saveApiKey, hb, saveApiKey_resume, hv, showToast]
    · intro message hp
      have hv : validateApiKey_throws probe = true := by
        simp [validateApiKey_throws, hp]
      simp [saveApiKey, hb, saveApiKey_resume, hv, showToast]

/-- The credential scenario of the specification: the probe is answered with status 401. -/
theorem saveApiKey_scenario_401 :
    (saveApiKey { sampleApp with
        elements := { sampleApp.elements with apiKeyInputValue := utf16 " bad-key " } }
      (.response 401 [])).storage = none ∧
    (saveApiKey { sampleApp with
        elements := { sampleApp.elements with apiKeyInputValue := utf16 " bad-key " } }
      (.response 401 [])).apiKey = none ∧
    (saveApiKey { sampleApp with
        elements := { sampleApp.elements with apiKeyInputValue := utf16 " bad-key " } }
      (.response 401 [])).elements.errorMessage
        = "Invalid API key. Please check and try again." ∧
    (saveApiKey { sampleApp with
        elements := { sampleApp.elements with apiKeyInputValue := utf16 " bad-key " } }
      (.response 401 [])).fetched = [probeUrl (utf16 "bad-key")] := by
  decide

/-! ## The proxy function -/

theorem handler_try_status (eng : Engine) (upstream : FetchResult) (response : Response)
    (h : handler_try eng upstream = .ok response) :
    response.status = 200 ∧ ∃ status body, upstream = .response status body ∧
      isOk status = true := by
  unfold handler_try at h
  split at h
  · simp at h
  · rename_i status body
    split at h
    · split at h
      · simp at h
      · split at h
        · simp at h
        · split at h <;> simp at h
    · rename_i hok
      split at h
      · simp at h
      · split at h
        · simp at h
        · split at h
          · simp at h
          · split at h
            · simp at h
            · simp only [Except.ok.injEq] at h
              subst h
              exact ⟨rfl, status, body, rfl, by simpa using hok⟩

/-- C9 (amended): `handler` sets status 400 and calls no provider when `image` or `mimeType`
is absent or otherwise falsy (the empty string included).  When both are truthy and convert
to strings, as strings do, it does not raise and sets a response after one call to the
provider: status 200 with the JSON value parsed from the completion when the call is answered
with a status in 200–299 and a body whose `choices[0].message.content` is a JSON text; in
every other case status 500 with a string that starts with `Error calling AI service: `. -/
theorem handler_spec (eng : Engine) (body : JsValue) (upstream : FetchResult) :
    ((truthy (optProp body (utf16 "image")) = false ∨
        truthy (optProp body (utf16 "mimeType")) = false) →
      handler eng body upstream
        = some ⟨some ⟨400, [],
            .str (utf16 "Please pass an image and mimeType in the request body")⟩, []⟩) ∧
    (truthy (optProp body (utf16 "image")) = true →
      truthy (optProp body (utf16 "mimeType")) = true →
      toStringThrows (optProp body (utf16 "image")) = false →
      toStringThrows (optProp body (utf16 "mimeType")) = false →
      (∃ response, handler eng body upstream = some ⟨some response, [apiUrl]⟩ ∧
        (response.status = 200 ∨
          (response.status = 500 ∧ ∃ message,
            response.body = .str (utf16 "Error calling AI service: " ++ message)))) ∧
      (∀ status text result content value, upstream = .response status text →
        isOk status = true → JSON.parse text = some result →
        completionOf result = some (.str content) → JSON.parse content = some value →
        handler eng body upstream
          = some ⟨some ⟨200, [("Content-Type", "application/json")], value⟩, [apiUrl]⟩) ∧
      (∀ response, handler eng body upstream = some ⟨some response, [apiUrl]⟩ →
        response.status = 200 →
        ∃ status text, upstream = .response status text ∧ isOk status = true)) := by
  constructor
  · intro h
    have hc : (!truthy (optProp body (utf16 "image")) ||
        !truthy (optProp body (utf16 "mimeType"))) = true := by
      rcases h with h | h <;> simp [h]
    simp only [handler, hc, if_true]
  · intro h1 h2 h3 h4
    have hc : (!truthy (optProp body (utf16 "image")) ||
        !truthy (optProp body (utf16 "mimeType"))) = false := by simp [h1, h2]
    have hd : (toStringThrows (optProp body (utf16 "mimeType")) ||
        toStringThrows (optProp body (utf16 "image"))) = false := by simp [h3, h4]
    have hh : handler eng body upstream =
        match handler_try eng upstream with
        | .ok response => some ⟨some response, [apiUrl]⟩
        | .error message =>
          some ⟨some ⟨500, [], .str (utf16 "Error calling AI service: " ++ message)⟩, [apiUrl]⟩ := by
      simp only [handler, hc, hd, Bool.false_eq_true, if_false]
    refine ⟨?_, ?_, ?_⟩
    · rw [hh]
      cases ht : handler_try eng upstream with
      | ok response => exact ⟨response, rfl, Or.inl (handler_try_status eng upstream response ht).1⟩
      | error message => exact ⟨_, rfl, Or.inr ⟨rfl, message, rfl⟩⟩
    · intro status text result content value hu hok hres hcont hval
      have ht : handler_try eng upstream
          = .ok ⟨200, [("Content-Type", "application/json")], value⟩ := by
        simp [handler_try, hu, hok, hres, hcont, Engine.toString, toStringThrows, hval]
      rw [hh, ht]
    · intro response hr hs
      rw [hh] at hr
      cases ht : handler_try eng upstream with
      | ok r => exact (handler_try_status eng upstream r ht).2
      | error message =>
        rw [ht] at hr
        simp only [Option.some.injEq, Context.mk.injEq, and_true] at hr
        rw [← hr] at hs
        simp at hs

/-- C9 (counterexample): a request whose `image` is present but empty gets status 400 and no
call to the provider, although the provider would have answered with a parsable completion,
for which the same request with a non-empty image gets status 200. -/
theorem handler_empty_image :
    optProp (.obj [(utf16 "image", .str []), (utf16 "mimeType", .str (utf16 "image/png"))])
        (utf16 "image") = .str [] ∧
    (handler sampleEngine
        (.obj [(utf16 "image", .str []), (utf16 "mimeType", .str (utf16 "image/png"))])
        (.response 200
          (utf16 "\x7b\"choices\":[\x7b\"message\":\x7b\"content\":\"\x7b\\\"pokemon_name\\\":\\\"Mew\\\"\x7d\"\x7d\x7d]\x7d"))).map
      (fun c => (c.res.map (fun r => r.status), c.fetched)) = some (some 400, []) ∧
    (handler sampleEngine
        (.obj [(utf16 "image", .str (utf16 "QUJD")), (utf16 "mimeType", .str (utf16 "image/png"))])
        (.response 200
          (utf16 "\x7b\"choices\":[\x7b\"message\":\x7b\"content\":\"\x7b\\\"pokemon_name\\\":\\\"Mew\\\"\x7d\"\x7d\x7d]\x7d"))).map
      (fun c => (c.res.map (fun r => r.status), c.fetched)) = some (some 200, [apiUrl]) := by
  exact ⟨by rfl, by rfl, by rfl⟩

/-! ## Analysis, display and reset -/

/-- C12 (amended): `resetApp` followed by its delayed callback leaves `currentImageFile`
`null` and `isAnalyzing` false, shows the upload section, hides the comparison section, the
artwork image, the result description and the loading indicator, and empties the file
input.  The creature name text, the description text, the artwork source and the user image
source are hidden with their elements but keep their values. -/
theorem resetApp_spec (app : App) :
    (resetApp app).timers = app.timers ++ [(300, .resetUI)] ∧
    (fire (resetApp app) .resetUI).currentImageFile = none ∧
    (fire (resetApp app) .resetUI).isAnalyzing = false ∧
    (fire (resetApp app) .resetUI).elements.uploadSectionDisplay = "block" ∧
    (fire (resetApp app) .resetUI).elements.comparisonSectionDisplay = "none" ∧
    (fire (resetApp app) .resetUI).elements.comparisonSectionShow = false ∧
    (fire (resetApp app) .resetUI).elements.pokemonImageDisplay = "none" ∧
    (fire (resetApp app) .resetUI).elements.resultDescriptionDisplay = "none" ∧
    (fire (resetApp app) .resetUI).elements.resultDescriptionShow = false ∧
    (fire (resetApp app) .resetUI).elements.loadingSpinnerDisplay = "none" ∧
    (fire (resetApp app) .resetUI).elements.fileInputValue = [] ∧
    (fire (resetApp app) .resetUI).elements.pokemonNameText = app.elements.pokemonNameText ∧
    (fire (resetApp app) .resetUI).elements.pokemonDescriptionText
      = app.elements.pokemonDescriptionText ∧
    (fire (resetApp app) .resetUI).elements.pokemonImageSrc = app.elements.pokemonImageSrc ∧
    (fire (resetApp app) .resetUI).elements.userImageSrc = app.elements.userImageSrc := by
  simp [resetApp, fire, hideLoadingState]

/-- C12 (counterexample): from a state that shows the result Pikachu, `resetApp` and its
delayed callback leave the name text, the description text and both image sources as they
were; none of them is cleared. -/
theorem resetApp_keeps_fields :
    (fire (resetApp resultApp) .resetUI).elements.pokemonNameText = .str (utf16 "Pikachu") ∧
    (fire (resetApp resultApp) .resetUI).elements.pokemonDescriptionText
      = .str (utf16 "You're like Pikachu") ∧
    (fire (resetApp resultApp) .resetUI).elements.pokemonImageSrc
      = .str (utf16 "https://img.example/25.png") ∧
    (fire (resetApp resultApp) .resetUI).elements.userImageSrc
      = .str (utf16 "data:image/png;base64,QUJD") ∧
    utf16 "Pikachu" ≠ [] := by
  exact ⟨rfl, rfl, rfl, rfl, by decide⟩

theorem logLookup_frame (app : App) (name : JsValue) :
    (logLookup app name).elements = app.elements ∧ (logLookup app name).timers = app.timers ∧
      (logLookup app name).isAnalyzing = app.isAnalyzing ∧
      (logLookup app name).apiKey = app.apiKey ∧
      (logLookup app name).currentImageFile = app.currentImageFile := by
  cases name <;> simp [logLookup]

theorem getPokemonImage_truthy (fetch : JsString → FetchResult) (name url : JsValue)
    (h : getPokemonImage fetch name = some url) : truthy url = true := by
  unfold getPokemonImage at h
  cases htry : getPokemonImage_try fetch name with
  | none =>
    rw [htry] at h
    simp only at h
    split at h
    · simp at h
    · simp only [Option.some.injEq] at h
      exact h ▸ truthy_placeholder
  | some u =>
    rw [htry] at h
    simp only [Option.some.injEq] at h
    subst h
    unfold getPokemonImage_try at htry
    split at htry
    · split at htry
      · simp at htry
      · split at htry
        · simp at htry
        · split at htry
          · simp at htry
          · exact artworkOf_truthy _ _ htry
    · simp at htry

theorem getPokemonImage_str (fetch : JsString → FetchResult) (n : JsString) :
    ∃ url, getPokemonImage fetch (.str n) = some url := by
  unfold getPokemonImage
  cases getPokemonImage_try fetch (.str n) with
  | none => exact ⟨.str placeholder, by simp [toStringThrows]⟩
  | some u => exact ⟨u, rfl⟩

theorem truthy_str_ne_nil (url : JsValue) (h : truthy url = true) (s : JsString)
    (hs : url = .str s) : s ≠ [] := by
  subst hs
  intro hnil
  subst hnil
  simp [truthy] at h

/-- The state in which the `try` block of `displayResult` ends without an exception. -/
theorem displayResult_try_ok (app : App) (lookup : JsString → FetchResult) (result : JsValue)
    (h : (displayResult_try app lookup result).2 = false) :
    ∃ name url description, getProp result (utf16 "pokemon_name") = some name ∧
      getPokemonImage lookup name = some url ∧
      getProp result (utf16 "description") = some description ∧
      (displayResult_try app lookup result).1.elements
        = { app.elements with
            pokemonNameText := name
            pokemonImageSrc := url
            pokemonDescriptionText := description
            loadingSpinnerDisplay := "none" } ∧
      (displayResult_try app lookup result).1.timers = app.timers ++ [(500, .revealResult)] ∧
      (displayResult_try app lookup result).1.isAnalyzing = app.isAnalyzing := by
  cases hn : getProp result (utf16 "pokemon_name") with
  | none => simp [displayResult_try, hn] at h
  | some name =>
    obtain ⟨f1, f2, f3, -, -⟩ := logLookup_frame app name
    cases hg : getPokemonImage lookup name with
    | none => simp [displayResult_try, hn, hg] at h
    | some url =>
      cases ht1 : toStringThrows name with
      | true => simp [displayResult_try, hn, hg, ht1] at h
      | false =>
        cases ht2 : toStringThrows url with
        | true => simp [displayResult_try, hn, hg, ht1, ht2] at h
        | false =>
          cases hd : getProp result (utf16 "description") with
          | none => simp [displayResult_try, hn, hg, ht1, ht2, hd] at h
          | some description =>
            cases ht3 : toStringThrows description with
            | true => simp [displayResult_try, hn, hg, ht1, ht2, hd, ht3] at h
            | false =>
              refine ⟨name, url, description, rfl, hg, rfl, ?_⟩
              simp [displayResult_try, hn, hg, ht1, ht2, hd, ht3, hideLoadingState, f1, f2, f3]

/-- What the `try` block of `displayResult` leaves untouched when it ends by an exception. -/
theorem displayResult_try_threw (app : App) (lookup : JsString → FetchResult)
    (result : JsValue) (h : (displayResult_try app lookup result).2 = true) :
    (displayResult_try app lookup result).1.timers = app.timers ∧
    (displayResult_try app lookup result).1.isAnalyzing = app.isAnalyzing ∧
    (displayResult_try app lookup result).1.elements.pokemonImageDisplay
      = app.elements.pokemonImageDisplay ∧
    (displayResult_try app lookup result).1.elements.resultDescriptionDisplay
      = app.elements.resultDescriptionDisplay ∧
    (displayResult_try app lookup result).1.elements.resultDescriptionShow
      = app.elements.resultDescriptionShow ∧
    (displayResult_try app lookup result).1.elements.loadingSpinnerDisplay
      = app.elements.loadingSpinnerDisplay := by
  cases hn : getProp result (utf16 "pokemon_name") with
  | none => simp [displayResult_try, hn]
  | some name =>
    obtain ⟨f1, f2, f3, -, -⟩ := logLookup_frame app name
    cases hg : getPokemonImage lookup name with
    | none => simp [displayResult_try, hn, hg, f1, f2, f3]
    | some url =>
      cases ht1 : toStringThrows name with
      | true => simp [displayResult_try, hn, hg, ht1, f1, f2, f3]
      | false =>
        cases ht2 : toStringThrows url with
        | true => simp [displayResult_try, hn, hg, ht1, ht2, f1, f2, f3]
        | false =>
          cases hd : getProp result (utf16 "description") with
          | none => simp [displayResult_try, hn, hg, ht1, ht2, hd, f1, f2, f3]
          | some description =>
            cases ht3 : toStringThrows description with
            | true => simp [displayResult_try, hn, hg, ht1, ht2, hd, ht3, f1, f2, f3]
            | false => simp [displayResult_try, hn, hg, ht1, ht2, hd, ht3] at h

theorem displayResult_of_ok (app : App) (lookup : JsString → FetchResult) (result : JsValue)
    (h : (displayResult_try app lookup result).2 = false) :
    displayResult app lookup result = (displayResult_try app lookup result).1 := by
  unfold displayResult
  cases hp : displayResult_try app lookup result with
  | mk a b =>
    rw [hp] at h
    simp only at h
    subst h
    rfl

theorem displayResult_of_threw (app : App) (lookup : JsString → FetchResult)
    (result : JsValue) (h : (displayResult_try app lookup result).2 = true) :
    displayResult app lookup result
      = hideLoadingState
          (showToast (displayResult_try app lookup result).1 "error"
            "Failed to load Pokémon data") := by
  unfold displayResult
  cases hp : displayResult_try app lookup result with
  | mk a b =>
    rw [hp] at h
    simp only at h
    subst h
    rfl

/-- C13: in `displayResult` the callback that makes the artwork image and the description
visible is scheduled only when the `try` block has run through, and then the source of the
artwork image has been set to the truthy value that `getPokemonImage` returned (a string
among them is non-empty: an artwork URL, a sprite URL or the placeholder) and the loading
indicator has been hidden; the callback leaves both as they are.  When the `try` block ends
by an exception, nothing is made visible: the error toast is shown and the loading indicator
hidden.  A result with a string name and a string description whose artwork value converts
to a string always runs through. -/
theorem displayResult_reveal (app : App) (lookup : JsString → FetchResult) (result : JsValue) :
    ((displayResult_try app lookup result).2 = false →
      ∃ url, (displayResult app lookup result).elements.pokemonImageSrc = url ∧
        truthy url = true ∧ (∀ s, url = .str s → s ≠ []) ∧
        (displayResult app lookup result).elements.loadingSpinnerDisplay = "none" ∧
        (displayResult app lookup result).timers = app.timers ++ [(500, .revealResult)] ∧
        (displayResult app lookup result).elements.pokemonImageDisplay
          = app.elements.pokemonImageDisplay ∧
        (displayResult app lookup result).elements.resultDescriptionDisplay
          = app.elements.resultDescriptionDisplay ∧
        (fire (displayResult app lookup result) .revealResult).elements.pokemonImageDisplay
          = "block" ∧
        (fire (displayResult app lookup result) .revealResult).elements.resultDescriptionDisplay
          = "block" ∧
        (fire (displayResult app lookup result) .revealResult).elements.pokemonImageSrc = url ∧
        (fire (displayResult app lookup result) .revealResult).elements.loadingSpinnerDisplay
          = "none") ∧
    ((displayResult_try app lookup result).2 = true →
      (displayResult app lookup result).timers = app.timers ++ [(5000, .hideToast "error")] ∧
      (displayResult app lookup result).elements.pokemonImageDisplay
        = app.elements.pokemonImageDisplay ∧
      (displayResult app lookup result).elements.resultDescriptionDisplay
        = app.elements.resultDescriptionDisplay ∧
      (displayResult app lookup result).elements.resultDescriptionShow
        = app.elements.resultDescriptionShow ∧
      (displayResult app lookup result).elements.loadingSpinnerDisplay = "none" ∧
      (displayResult app lookup result).elements.errorToastShown = true ∧
      (displayResult app lookup result).elements.errorMessage = "Failed to load Pokémon data") ∧
    (∀ n d, getProp result (utf16 "pokemon_name") = some (.str n) →
      getProp result (utf16 "description") = some (.str d) →
      (∀ url, getPokemonImage lookup (.str n) = some url → toStringThrows url = false) →
      (displayResult_try app lookup result).2 = false) := by
  refine ⟨?_, ?_, ?_⟩
  · intro h
    obtain ⟨name, url, description, -, hg, -, he, ht, -⟩ := displayResult_try_ok app lookup result h
    have hurl := getPokemonImage_truthy lookup name url hg
    rw [displayResult_of_ok app lookup result h]
    refine ⟨url, by rw [he], hurl, truthy_str_ne_nil url hurl, by rw [he], ht, by rw [he],
      by rw [he], ?_, ?_, ?_, ?_⟩ <;> simp [fire, he]
  · intro h
    obtain ⟨t1, -, t3, t4, t5, -⟩ := displayResult_try_threw app lookup result h
    rw [displayResult_of_threw app lookup result h]
    simp [hideLoadingState, showToast, t1, t3, t4, t5]
  · intro n d hn hd hurl
    obtain ⟨url, hg⟩ := getPokemonImage_str lookup n
    have ht := hurl url hg
    simp [displayResult_try, hn, hd, hg, ht, toStringThrows]

theorem displayResult_try_flag (a b : App) (lookup : JsString → FetchResult)
    (result : JsValue) :
    (displayResult_try a lookup result).2 = (displayResult_try b lookup result).2 := by
  cases hn : getProp result (utf16 "pokemon_name") with
  | none => simp [displayResult_try, hn]
  | some name =>
    cases hg : getPokemonImage lookup name with
    | none => simp [displayResult_try, hn, hg]
    | some url =>
      cases ht1 : toStringThrows name with
      | true => simp [displayResult_try, hn, hg, ht1]
      | false =>
        cases ht2 : toStringThrows url with
        | true => simp [displayResult_try, hn, hg, ht1, ht2]
        | false =>
          cases hd : getProp result (utf16 "description") with
          | none => simp [displayResult_try, hn, hg, ht1, ht2, hd]
          | some description =>
            cases ht3 : toStringThrows description <;>
              simp [displayResult_try, hn, hg, ht1, ht2, hd, ht3]

/-- The state in which `analyzeFace` works once the key and the image are there. -/
theorem analyzeFace_ready (app : App) (env : Outcomes) (key : JsString) (file : File)
    (hkey : app.apiKey = some key) (hne : key ≠ []) (hfile : app.currentImageFile = some file) :
    analyzeFace app env =
      { (match analyzeFace_try (showLoadingState { app with isAnalyzing := true }) key env with
          | (app2, false) => app2
          | (app2, true) =>
            hideLoadingState
              (showToast app2 "error" "Failed to analyze image. Please try again.")) with
        isAnalyzing := false } := by
  have hk : key.isEmpty = false := by
    cases key with
    | nil => exact absurd rfl hne
    | cons _ _ => rfl
  simp only [analyzeFace, hkey, hk, hfile, Bool.false_eq_true, if_false]

theorem analyzeFace_threw (app : App) (env : Outcomes) (key : JsString) (file : File)
    (hkey : app.apiKey = some key) (hne : key ≠ []) (hfile : app.currentImageFile = some file)
    (h : env.base64 = none ∨ callGeminiAPI env.provider env.random = none) :
    (analyzeFace app env).elements.errorToastShown = true ∧
    (analyzeFace app env).elements.errorMessage = "Failed to analyze image. Please try again." ∧
    (analyzeFace app env).elements.loadingSpinnerDisplay = "none" ∧
    (analyzeFace app env).isAnalyzing = false ∧
    (analyzeFace app env).elements.pokemonImageDisplay = "none" ∧
    (analyzeFace app env).elements.resultDescriptionDisplay = "none" ∧
    (analyzeFace app env).timers = app.timers ++ [(5000, .hideToast "error")] := by
  rw [analyzeFace_ready app env key file hkey hne hfile]
  cases hb : env.base64 with
  | none => simp [analyzeFace_try, hb, hideLoadingState, showToast, showLoadingState]
  | some b64 =>
    have hc : callGeminiAPI env.provider env.random = none := by
      rcases h with h | h
      · rw [hb] at h; cases h
      · exact h
    simp [analyzeFace_try, hb, hc, hideLoadingState, showToast, showLoadingState]

theorem displayResult_threw_view (a : App) (lookup : JsString → FetchResult)
    (result : JsValue) (h : (displayResult_try a lookup result).2 = true) :
    (displayResult a lookup result).elements.errorToastShown = true ∧
    (displayResult a lookup result).elements.errorMessage = "Failed to load Pokémon data" ∧
    (displayResult a lookup result).elements.loadingSpinnerDisplay = "none" ∧
    (displayResult a lookup result).elements.pokemonImageDisplay
      = a.elements.pokemonImageDisplay ∧
    (displayResult a lookup result).elements.resultDescriptionDisplay
      = a.elements.resultDescriptionDisplay ∧
    (displayResult a lookup result).timers = a.timers ++ [(5000, .hideToast "error")] := by
  obtain ⟨t1, -, t3, t4, -, -⟩ := displayResult_try_threw a lookup result h
  rw [displayResult_of_threw a lookup result h]
  simp [hideLoadingState, showToast, t1, t3, t4]

theorem analyzeFace_try_display (app1 : App) (key : JsString) (env : Outcomes)
    (b64 : JsString) (result : JsValue) (hb : env.base64 = some b64)
    (hc : callGeminiAPI env.provider env.random = some result) :
    ∃ a, a.elements = app1.elements ∧ a.timers = app1.timers ∧
      a.fetched = app1.fetched ++ [geminiUrl key] ∧
      analyzeFace_try app1 key env = (displayResult a env.lookup result, false) :=
  ⟨{ app1 with fetched := app1.fetched ++ [geminiUrl key] }, rfl, rfl, rfl,
    by simp [analyzeFace_try, hb, hc]⟩

/-- C14: every failure path of `analyzeFace` ends with an error toast that a timer hides
again.  Without a key, or without an image, the toast is all that happens besides the
opening of the key modal: no request is made.  When `fileToBase64` fails, when
`callGeminiAPI` throws, or when the display step fails, the error toast is shown, the
loading indicator is hidden, `isAnalyzing` is false, the artwork image and the description
are not displayed, and no callback that would display them is scheduled. -/
theorem analyzeFace_failure_paths (app : App) (env : Outcomes) :
    ((app.apiKey = none ∨ app.apiKey = some []) →
      (analyzeFace app env).elements.errorToastShown = true ∧
      (analyzeFace app env).elements.errorMessage = "Please set your API key first" ∧
      (analyzeFace app env).elements.apiModalHidden = false ∧
      (analyzeFace app env).fetched = app.fetched ∧
      (analyzeFace app env).isAnalyzing = app.isAnalyzing ∧
      (analyzeFace app env).timers = app.timers ++ [(5000, .hideToast "error")]) ∧
    (∀ key, app.apiKey = some key → key ≠ [] → app.currentImageFile = none →
      (analyzeFace app env).elements.errorToastShown = true ∧
      (analyzeFace app env).elements.errorMessage = "Please upload an image first" ∧
      (analyzeFace app env).fetched = app.fetched ∧
      (analyzeFace app env).isAnalyzing = app.isAnalyzing ∧
      (analyzeFace app env).timers = app.timers ++ [(5000, .hideToast "error")]) ∧
    (∀ key file, app.apiKey = some key → key ≠ [] → app.currentImageFile = some file →
      ((env.base64 = none ∨ callGeminiAPI env.provider env.random = none) →
        (analyzeFace app env).elements.errorToastShown = true ∧
        (analyzeFace app env).elements.errorMessage
          = "Failed to analyze image. Please try again." ∧
        (analyzeFace app env).elements.loadingSpinnerDisplay = "none" ∧
        (analyzeFace app env).isAnalyzing = false ∧
        (analyzeFace app env).elements.pokemonImageDisplay = "none" ∧
        (analyzeFace app env).elements.resultDescriptionDisplay = "none" ∧
        (analyzeFace app env).timers = app.timers ++ [(5000, .hideToast "error")]) ∧
      (∀ b64 result, env.base64 = some b64 →
        callGeminiAPI env.provider env.random = some result →
        (displayResult_try app env.lookup result).2 = true →
        (analyzeFace app env).elements.errorToastShown = true ∧
        (analyzeFace app env).elements.errorMessage = "Failed to load Pokémon data" ∧
        (analyzeFace app env).elements.loadingSpinnerDisplay = "none" ∧
        (analyzeFace app env).isAnalyzing = false ∧
        (analyzeFace app env).elements.pokemonImageDisplay = "none" ∧
        (analyzeFace app env).elements.resultDescriptionDisplay = "none" ∧
        (analyzeFace app env).timers = app.timers ++ [(5000, .hideToast "error")])) ∧
    (∀ a : App, (fire a (.hideToast "error")).elements.errorToastShown = false) := by
  refine ⟨?_, ?_, ?_, ?_⟩
  · intro h
    have ha : analyzeFace app env
        = showApiModal (showToast app "error" "Please set your API key first") := by
      rcases h with h | h <;> simp [analyzeFace, h]
    rw [ha]
    unfold showApiModal
    simp only [showToast, if_true]
    cases app.storage with
    | none => simp
    | some k => by_cases hk : k.isEmpty = true <;> simp [hk]
  · intro key hkey hne hfile
    have hk : key.isEmpty = false := by
      cases key with
      | nil => exact absurd rfl hne
      | cons _ _ => rfl
    simp [analyzeFace, hkey, hk, hfile, showToast]
  · intro key file hkey hne hfile
    refine ⟨analyzeFace_threw app env key file hkey hne hfile, ?_⟩
    intro b64 result hb hc hd
    rw [analyzeFace_ready app env key file hkey hne hfile]
    obtain ⟨a, ha1, ha2, -, htry⟩ := analyzeFace_try_display
      (showLoadingState { app with isAnalyzing := true }) key env b64 result hb hc
    have hflag := displayResult_try_flag a app env.lookup result
    rw [hd] at hflag
    obtain ⟨v1, v2, v3, v4, v5, v6⟩ := displayResult_threw_view a env.lookup result hflag
    rw [htry]
    simp only
    refine ⟨v1, v2, v3, trivial, ?_, ?_, ?_⟩
    · rw [v4, ha1]; rfl
    · rw [v5, ha1]; rfl
    · rw [v6, ha2]; rfl
  · intro a
    simp [fire, hideToast]

theorem normalizeText_fallback (text : JsValue) (r : Draw) (hr : r.IsRandom)
    (h : ∀ s, text = .str s → ∀ m, JSON.parse (cleanText s) ≠ some (.obj m)) :
    normalizeText text r ∈ fallbackPokemon := by
  cases text with
  | str s =>
    have htry : callGeminiAPI_try s = none := by
      rw [callGeminiAPI_try_eq]
      cases hp : JSON.parse (cleanText s) with
      | none => rfl
      | some v =>
        cases v with
        | obj m => exact absurd hp (h s rfl m)
        | _ => rfl
    show callGeminiAPI_normalize s r ∈ fallbackPokemon
    rw [callGeminiAPI_normalize_of_try_none s r htry]
    exact fallback_mem r hr
  | _ => exact fallback_mem r hr

theorem displayResult_ok_view (a : App) (lookup : JsString → FetchResult) (result : JsValue)
    (h : (displayResult_try a lookup result).2 = false) :
    (displayResult a lookup result).elements.errorToastShown = a.elements.errorToastShown ∧
    (displayResult a lookup result).elements.errorMessage = a.elements.errorMessage ∧
    (displayResult a lookup result).elements.loadingSpinnerDisplay = "none" ∧
    (displayResult a lookup result).timers = a.timers ++ [(500, .revealResult)] ∧
    getProp result (utf16 "pokemon_name")
      = some (displayResult a lookup result).elements.pokemonNameText := by
  obtain ⟨name, url, description, hn, -, -, he, ht, -⟩ := displayResult_try_ok a lookup result h
  rw [displayResult_of_ok a lookup result h, he, ht]
  exact ⟨rfl, rfl, rfl, rfl, hn⟩

/-- C11 (amended): of the provider errors only a completion that cannot be parsed is
recovered locally.  For a response with a status in 200–299 whose completion text does not
clean up to a JSON object, `callGeminiAPI` returns one of the fixed fallback entries (draw in
`[0, 1)`), and `analyzeFace` hands it to `displayResult` without reporting a failure.  For a
rejected request (network failure) and for a status outside 200–299, `callGeminiAPI` throws,
and `analyzeFace` shows the error toast `Failed to analyze image. Please try again.`, hides
the loading indicator and displays no result. -/
theorem callGeminiAPI_recovery (app : App) (env : Outcomes) :
    (∀ status body data text, env.provider = .response status body → isOk status = true →
      JSON.parse body = some data → responseText data = some text →
      (∀ s, text = .str s → ∀ m, JSON.parse (cleanText s) ≠ some (.obj m)) →
      env.random.IsRandom →
      ∃ v, callGeminiAPI env.provider env.random = some v ∧ v ∈ fallbackPokemon) ∧
    (∀ message, env.provider = .rejected message →
      callGeminiAPI env.provider env.random = none) ∧
    (∀ status body, env.provider = .response status body → isOk status = false →
      callGeminiAPI env.provider env.random = none) ∧
    (∀ key file b64, app.apiKey = some key → key ≠ [] → app.currentImageFile = some file →
      env.base64 = some b64 →
      (callGeminiAPI env.provider env.random = none →
        (analyzeFace app env).elements.errorToastShown = true ∧
        (analyzeFace app env).elements.errorMessage
          = "Failed to analyze image. Please try again." ∧
        (analyzeFace app env).elements.loadingSpinnerDisplay = "none" ∧
        (analyzeFace app env).isAnalyzing = false ∧
        (analyzeFace app env).elements.pokemonImageDisplay = "none" ∧
        (analyzeFace app env).elements.resultDescriptionDisplay = "none" ∧
        (analyzeFace app env).timers = app.timers ++ [(5000, .hideToast "error")]) ∧
      (∀ v, callGeminiAPI env.provider env.random = some v →
        (displayResult_try app env.lookup v).2 = false →
        (analyzeFace app env).elements.errorToastShown = app.elements.errorToastShown ∧
        (analyzeFace app env).elements.errorMessage = app.elements.errorMessage ∧
        (analyzeFace app env).elements.loadingSpinnerDisplay = "none" ∧
        (analyzeFace app env).isAnalyzing = false ∧
        (analyzeFace app env).timers = app.timers ++ [(500, .revealResult)] ∧
        getProp v (utf16 "pokemon_name")
          = some (analyzeFace app env).elements.pokemonNameText)) := by
  refine ⟨?_, ?_, ?_, ?_⟩
  · intro status body data text hp hok hdata htext hbad hr
    refine ⟨normalizeText text env.random, ?_, normalizeText_fallback text _ hr hbad⟩
    simp [callGeminiAPI, hp, hok, hdata, htext]
  · intro message hp
    simp [callGeminiAPI, hp]
  · intro status body hp hok
    simp [callGeminiAPI, hp, hok]
  · intro key file b64 hkey hne hfile hb
    refine ⟨fun hc => analyzeFace_threw app env key file hkey hne hfile (Or.inr hc), ?_⟩
    intro v hc hd
    rw [analyzeFace_ready app env key file hkey hne hfile]
    obtain ⟨a, ha1, ha2, -, htry⟩ := analyzeFace_try_display
      (showLoadingState { app with isAnalyzing := true }) key env b64 v hb hc
    have hflag := displayResult_try_flag a app env.lookup v
    rw [hd] at hflag
    obtain ⟨v1, v2, v3, v4, v5⟩ := displayResult_ok_view a env.lookup v hflag
    rw [htry]
    simp only
    refine ⟨?_, ?_, v3, trivial, ?_, v5⟩
    · rw [v1, ha1]; rfl
    · rw [v2, ha1]; rfl
    · rw [v4, ha2]; rfl

/-- C11 (counterexample): a provider answer with status 503 and a rejected request make
`callGeminiAPI` throw instead of returning a fallback entry, and `analyzeFace` reports the
failure to the user: the error toast is shown and no creature name is displayed. -/
theorem callGeminiAPI_throws_on_provider_error :
    callGeminiAPI
        (.response 503 (utf16 "\x7b\"error\":\x7b\"message\":\"overloaded\"\x7d\x7d")) ⟨0, 0⟩
      = none ∧
    callGeminiAPI (.rejected (utf16 "Failed to fetch")) ⟨0, 0⟩ = none ∧
    (analyzeFace readyApp
        ⟨some (utf16 "QUJD"),
          .response 503 (utf16 "\x7b\"error\":\x7b\"message\":\"overloaded\"\x7d\x7d"), ⟨0, 0⟩,
          fun _ => .rejected []⟩).elements.errorToastShown = true ∧
    (analyzeFace readyApp
        ⟨some (utf16 "QUJD"),
          .response 503 (utf16 "\x7b\"error\":\x7b\"message\":\"overloaded\"\x7d\x7d"), ⟨0, 0⟩,
          fun _ => .rejected []⟩).elements.errorMessage
      = "Failed to analyze image. Please try again." ∧
    (analyzeFace readyApp
        ⟨some (utf16 "QUJD"),
          .response 503 (utf16 "\x7b\"error\":\x7b\"message\":\"overloaded\"\x7d\x7d"), ⟨0, 0⟩,
          fun _ => .rejected []⟩).elements.pokemonNameText = .str [] := by
  exact ⟨rfl, rfl, rfl, rfl, rfl⟩

/-- A run of the recovery: the provider answers 200 with the completion
`Sorry, I cannot help.`, and `callGeminiAPI` returns a fallback entry. -/
theorem callGeminiAPI_scenario_unparsable :
    ∃ v, callGeminiAPI
        (.response 200
          (utf16 "\x7b\"candidates\":[\x7b\"content\":\x7b\"parts\":[\x7b\"text\":\"Sorry, I cannot help.\"\x7d]\x7d\x7d]\x7d"))
        ⟨1, 1⟩ = some v ∧ v ∈ fallbackPokemon := by
  refine ⟨normalizeText (.str (utf16 "Sorry, I cannot help.")) ⟨1, 1⟩, rfl, ?_⟩
  apply normalizeText_fallback _ _ (by decide)
  intro s hs m hp
  simp only [JsValue.str.injEq] at hs
  subst hs
  have hnone : JSON.parse (cleanText (utf16 "Sorry, I cannot help.")) = none := by rfl
  rw [hnone] at hp
  cases hp

/-- A run of the display step: the lookup is rejected, the placeholder becomes the source of
the artwork image, the loading indicator is hidden, and the reveal shows the image. -/
theorem displayResult_scenario_placeholder :
    (displayResult (showLoadingState readyApp) (fun _ => .rejected [])
        (entry "Pikachu" "You're like Pikachu")).elements.pokemonImageSrc = .str placeholder ∧
    (displayResult (showLoadingState readyApp) (fun _ => .rejected [])
        (entry "Pikachu" "You're like Pikachu")).elements.loadingSpinnerDisplay = "none" ∧
    (displayResult (showLoadingState readyApp) (fun _ => .rejected [])
        (entry "Pikachu" "You're like Pikachu")).elements.pokemonImageDisplay = "none" ∧
    (displayResult (showLoadingState readyApp) (fun _ => .rejected [])
        (entry "Pikachu" "You're like Pikachu")).timers = [(500, .revealResult)] ∧
    (displayResult (showLoadingState readyApp) (fun _ => .rejected [])
        (entry "Pikachu" "You're like Pikachu")).fetched
      = [utf16 "https://pokeapi.co/api/v2/pokemon/pikachu"] ∧
    (fire (displayResult (showLoadingState readyApp) (fun _ => .rejected [])
        (entry "Pikachu" "You're like Pikachu")) .revealResult).elements.pokemonImageDisplay
      = "block" := by
  exact ⟨rfl, rfl, rfl, rfl, rfl, rfl⟩

end PokiFace
